import Mathlib

set_option maxHeartbeats 1600000

/- Verification development for the text-based zombie survival game
   (src/main.py).  Python objects are modelled by value; where object
   identity matters, an explicit unique identifier (`uid`) stands for the
   object reference, and a `heap` association list maps identifiers to the
   mutable entity state, mirroring Python's object store. -/

/-- Modelled from the spec: the `Position` class lives in the missing
`main_support` module.  Per the spec it is a pair of signed integers. -/
structure Position where
  x : Int
  y : Int
deriving DecidableEq

/-- Modelled from the spec: `add(offset)` yields a new Position. -/
def Position.add (p q : Position) : Position :=
  ⟨p.x + q.x, p.y + q.y⟩

/-- Modelled from the spec: `distance(other)` is Manhattan distance
(|dx| + |dy|). -/
def Position.distance (p q : Position) : Int :=
  ((p.x - q.x).natAbs : Int) + ((p.y - q.y).natAbs : Int)

/-- The two pickup variants, Garlic and Crossbow (src/main.py 1164-1235). -/
inductive PickupKind where
  | garlic
  | crossbow
deriving DecidableEq

/-- Modelled from the spec: the LIFETIMES table of the missing
`main_support` module gives Garlic durability 10 and Crossbow durability 5. -/
def PickupKind.lifetime : PickupKind → Int
  | .garlic => 10
  | .crossbow => 5

/-- Display characters of the pickups: Garlic 'G', Crossbow 'C'
(src/main.py 1187-1199, 1223-1235; the constants GARLIC and CROSSBOW of
`main_support` are these characters, per the spec's tag table). -/
def PickupKind.displayChar : PickupKind → Char
  | .garlic => 'G'
  | .crossbow => 'C'

/-- A Pickup instance (src/main.py 1097-1161).  `uid` models Python object
identity (list removal compares by identity); `remaining_steps` is the
lifetime counter initialised from LIFETIMES and mutated by `hold`. -/
structure Pickup where
  uid : Nat
  kind : PickupKind
  remaining_steps : Int
deriving DecidableEq

/-- Pickup.hold (src/main.py 1140-1147): remaining lifetime decreases by
one. -/
def Pickup.hold (p : Pickup) : Pickup :=
  { p with remaining_steps := p.remaining_steps - 1 }

/-- Pickup.get_lifetime (src/main.py 1133-1138). -/
def Pickup.get_lifetime (p : Pickup) : Int :=
  p.remaining_steps

/-- Inventory (src/main.py 1238-1327): an ordered list of held pickups. -/
structure Inventory where
  items : List Pickup
deriving DecidableEq

/-- Inventory.contains (src/main.py 1311-1327): scan the items for one whose
display character equals the given pickup id. -/
def Inventory.contains (inv : Inventory) (pickup_id : Char) : Bool :=
  inv.items.any (fun i => i.kind.displayChar == pickup_id)

/-- Inventory.add_item (src/main.py 1287-1294). -/
def Inventory.add_item (inv : Inventory) (item : Pickup) : Inventory :=
  ⟨inv.items ++ [item]⟩

/-- The loop of Inventory.step (src/main.py 1278-1285).  CPython's
`for item in self.items` iterates by an internal index that advances after
every body execution, even when `self.items.remove(item)` has shifted the
later elements one slot left; an element that slides into the just-visited
index is therefore skipped.  The index-based recursion below reproduces
exactly that.  The `fuel` argument only makes the recursion structural; the
index grows by one each iteration while the list never grows, so
`items.length - i` fuel always suffices (`Inventory.stepLoop_fuel_irrelevant`
below proves the result is fuel-independent from that bound on). -/
def Inventory.stepLoop : Nat → List Pickup → Nat → List Pickup
  | 0, items, _ => items
  | fuel + 1, items, i =>
    if h : i < items.length then
      if (items.get ⟨i, h⟩).hold.get_lifetime ≤ 0 then
        Inventory.stepLoop fuel
          ((items.set i (items.get ⟨i, h⟩).hold).erase (items.get ⟨i, h⟩).hold)
          (i + 1)
      else
        Inventory.stepLoop fuel (items.set i (items.get ⟨i, h⟩).hold) (i + 1)
    else items

/-- Inventory.step (src/main.py 1258-1285): hold every item and drop the
expired ones, via the index-advancing loop. -/
def Inventory.step (inv : Inventory) : Inventory :=
  ⟨Inventory.stepLoop inv.items.length inv.items 0⟩

/-- Fuel adequacy for `Inventory.stepLoop`: any two fuels of at least
`items.length - i` give the same answer, so `Inventory.step`'s choice of
`items.length` faithfully models Python's unfueled loop. -/
theorem Inventory.stepLoop_fuel_irrelevant :
    ∀ (f g i : Nat) (items : List Pickup),
      items.length - i ≤ f → items.length - i ≤ g →
      Inventory.stepLoop f items i = Inventory.stepLoop g items i := by
  intro f
  induction f with
  | zero =>
    intro g i items hf _
    match g with
    | 0 => rfl
    | g + 1 =>
      have hi : ¬ i < items.length := by omega
      simp only [Inventory.stepLoop, hi, dite_false, dif_neg]
  | succ f ih =>
    intro g i items hf hg
    by_cases hi : i < items.length
    · match g with
      | 0 => omega
      | g + 1 =>
        simp only [Inventory.stepLoop, hi, dite_true, dif_pos]
        by_cases hexp : (items.get ⟨i, hi⟩).hold.get_lifetime ≤ 0
        · simp only [hexp, if_true, if_pos]
          apply ih
          · have h1 : ((items.set i (items.get ⟨i, hi⟩).hold).erase
                (items.get ⟨i, hi⟩).hold).length ≤
                (items.set i (items.get ⟨i, hi⟩).hold).length :=
              (List.erase_sublist _ _).length_le
            have h2 : (items.set i (items.get ⟨i, hi⟩).hold).length =
                items.length := List.length_set items i _
            omega
          · have h1 : ((items.set i (items.get ⟨i, hi⟩).hold).erase
                (items.get ⟨i, hi⟩).hold).length ≤
                (items.set i (items.get ⟨i, hi⟩).hold).length :=
              (List.erase_sublist _ _).length_le
            have h2 : (items.set i (items.get ⟨i, hi⟩).hold).length =
                items.length := List.length_set items i _
            omega
        · simp only [hexp, if_false, if_neg]
          apply ih
          · have h2 : (items.set i (items.get ⟨i, hi⟩).hold).length =
                items.length := List.length_set items i _
            omega
          · have h2 : (items.set i (items.get ⟨i, hi⟩).hold).length =
                items.length := List.length_set items i _
            omega
    · match g with
      | 0 =>
        simp only [Inventory.stepLoop, hi, dite_false, dif_neg]
      | g + 1 =>
        simp only [Inventory.stepLoop, hi, dite_false, dif_neg]

/-- The abstract entity state stored per object in the heap.  The variants
mirror the Python classes Hospital, Player, VulnerablePlayer, HoldingPlayer,
Zombie, TrackingZombie and the on-grid pickups Garlic/Crossbow. -/
inductive EntityData where
  | hospital
  | player
  | vulnerablePlayer (infected : Bool)
  | holdingPlayer (infected : Bool) (inventory : Inventory)
  | zombie
  | trackingZombie
  | pickupEntity (kind : PickupKind) (remaining_steps : Int)
deriving DecidableEq

/-- The infect dispatch: VulnerablePlayer.infect sets the flag
(src/main.py 837-842); HoldingPlayer.infect (src/main.py 1355-1364)
suppresses it while the inventory contains garlic, else defers to the
superclass.  Other classes have no infect method (Python would raise
AttributeError; modelled as identity, unreachable during play). -/
def EntityData.infect : EntityData → EntityData
  | .vulnerablePlayer _ => .vulnerablePlayer true
  | .holdingPlayer inf inv =>
    if inv.contains 'G' then .holdingPlayer inf inv
    else .holdingPlayer true inv
  | e => e

/-- VulnerablePlayer.is_infected (src/main.py 844-848), lifted over the
entity variants; non-players report false. -/
def EntityData.is_infected : EntityData → Bool
  | .vulnerablePlayer inf => inf
  | .holdingPlayer inf _ => inf
  | _ => false

/-- C1: the claim says Inventory.step decrements every held item by exactly
one and removes exactly the expired ones.  The code removes elements of
`self.items` while iterating over it, so when the items at two consecutive
indices both expire, the second one is never visited: for the inventory
[Garlic(1), Crossbow(1)] one step yields [Crossbow(1)] — the crossbow is
neither decremented nor removed, although its lifetime would have reached
zero.  This contradicts Inventory.step's own docstring ("the lifetime of
every item stored within the inventory decreases by one"), so the claim is
right and the code is wrong. -/
theorem inventory_step_skips_item_after_removal :
    Inventory.step ⟨[⟨0, .garlic, 1⟩, ⟨1, .crossbow, 1⟩]⟩ =
      ⟨[⟨1, .crossbow, 1⟩]⟩ ∧
    Inventory.step ⟨[⟨0, .garlic, 10⟩, ⟨1, .crossbow, 5⟩]⟩ =
      ⟨[⟨0, .garlic, 9⟩, ⟨1, .crossbow, 4⟩]⟩ := by
  constructor <;> rfl

/-- C7: calling infect() on a holding player whose inventory contains a
Garlic item leaves the player's state (in particular the infected flag)
unchanged, and calling it with no Garlic in the inventory sets the infected
flag to true. -/
theorem holdingPlayer_infect_garlic (inf : Bool) (inv : Inventory) :
    (inv.contains 'G' = true →
      (EntityData.holdingPlayer inf inv).infect =
        EntityData.holdingPlayer inf inv) ∧
    (inv.contains 'G' = false →
      (EntityData.holdingPlayer inf inv).infect.is_infected = true) := by
  constructor <;> intro h <;>
    simp [EntityData.infect, h, EntityData.is_infected]

/-- Witness for C7 at a concrete holding player: with a garlic of lifetime
10 held, infect leaves the uninfected player uninfected; the second
implication holds vacuously at this input but is discharged at a garlic-free
inventory by the second conjunct. -/
theorem holdingPlayer_infect_garlic_witness :
    (((Inventory.mk [⟨0, .garlic, 10⟩]).contains 'G' = true →
      (EntityData.holdingPlayer false ⟨[⟨0, .garlic, 10⟩]⟩).infect =
        EntityData.holdingPlayer false ⟨[⟨0, .garlic, 10⟩]⟩) ∧
    ((Inventory.mk [⟨0, .garlic, 10⟩]).contains 'G' = false →
      (EntityData.holdingPlayer false ⟨[⟨0, .garlic, 10⟩]⟩).infect.is_infected =
        true)) ∧
    (((Inventory.mk []).contains 'G' = true →
      (EntityData.holdingPlayer false ⟨[]⟩).infect =
        EntityData.holdingPlayer false ⟨[]⟩) ∧
    ((Inventory.mk []).contains 'G' = false →
      (EntityData.holdingPlayer false ⟨[]⟩).infect.is_infected = true)) :=
  ⟨holdingPlayer_infect_garlic false ⟨[⟨0, .garlic, 10⟩]⟩,
   holdingPlayer_infect_garlic false ⟨[]⟩⟩

/-- Keys of the EntityLocations dictionary are integer coordinate pairs. -/
abbrev GKey := Int × Int

/-- Python dict lookup (`dict.get(k, None)`) on the insertion-ordered entry
list. -/
def dictLookup (k : GKey) : List (GKey × Nat) → Option Nat
  | [] => none
  | (k', v) :: t => if k' = k then some v else dictLookup k t

/-- The removal part of Python `dict.pop(k, None)`: drop the entry with the
given key (the first such; keys are unique in an actual dict). -/
def dictEraseKey (k : GKey) : List (GKey × Nat) → List (GKey × Nat)
  | [] => []
  | (k', v) :: t => if k' = k then t else (k', v) :: dictEraseKey k t

/-- Python `dict.update({k: v})`: replace the value in place when the key is
present (keeping its slot in the iteration order), else append the new entry
at the end of the iteration order. -/
def dictUpdate (k : GKey) (v : Nat) : List (GKey × Nat) → List (GKey × Nat)
  | [] => [(k, v)]
  | (k', v') :: t =>
    if k' = k then (k', v) :: t else (k', v') :: dictUpdate k v t

theorem dictLookup_eq_none {k : GKey} {m : List (GKey × Nat)} :
    dictLookup k m = none ↔ ∀ kv ∈ m, kv.1 ≠ k := by
  induction m with
  | nil => simp [dictLookup]
  | cons hd t ih =>
    obtain ⟨k', v⟩ := hd
    by_cases hk : k' = k
    · simp [dictLookup, hk]
    · simp [dictLookup, hk, ih]

theorem dictLookup_some_decomp {k : GKey} {m : List (GKey × Nat)} {v : Nat}
    (h : dictLookup k m = some v) :
    ∃ l1 l2, m = l1 ++ (k, v) :: l2 ∧ (∀ kv ∈ l1, kv.1 ≠ k) ∧
      dictEraseKey k m = l1 ++ l2 := by
  induction m with
  | nil => simp [dictLookup] at h
  | cons hd t ih =>
    obtain ⟨k', v'⟩ := hd
    by_cases hk : k' = k
    · refine ⟨[], t, ?_, by simp, ?_⟩
      · simp only [dictLookup, hk, if_pos] at h
        simp_all
      · simp [dictEraseKey, hk]
    · simp only [dictLookup, hk, if_neg, if_false] at h
      obtain ⟨l1, l2, hm, hl1, he⟩ := ih h
      refine ⟨(k', v') :: l1, l2, by simp [hm], ?_,
        by simp [dictEraseKey, hk, he]⟩
      intro kv hkv
      rcases List.mem_cons.mp hkv with h1 | h1
      · subst h1; exact hk
      · exact hl1 kv h1

theorem dictEraseKey_of_lookup_none {k : GKey} {m : List (GKey × Nat)}
    (h : dictLookup k m = none) : dictEraseKey k m = m := by
  induction m with
  | nil => rfl
  | cons hd t ih =>
    obtain ⟨k', v⟩ := hd
    by_cases hk : k' = k
    · simp [dictLookup, hk] at h
    · simp only [dictLookup, hk, if_neg, if_false] at h
      simp [dictEraseKey, hk, ih h]

theorem dictUpdate_of_lookup_none {k : GKey} {v : Nat}
    {m : List (GKey × Nat)} (h : dictLookup k m = none) :
    dictUpdate k v m = m ++ [(k, v)] := by
  induction m with
  | nil => rfl
  | cons hd t ih =>
    obtain ⟨k', v'⟩ := hd
    by_cases hk : k' = k
    · simp [dictLookup, hk] at h
    · simp only [dictLookup, hk, if_neg, if_false] at h
      simp [dictUpdate, hk, ih h]

theorem dictLookup_append {k : GKey} {l1 l2 : List (GKey × Nat)} :
    dictLookup k (l1 ++ l2) =
      match dictLookup k l1 with
      | some v => some v
      | none => dictLookup k l2 := by
  induction l1 with
  | nil => simp [dictLookup]
  | cons hd t ih =>
    obtain ⟨k', v⟩ := hd
    by_cases hk : k' = k
    · simp [dictLookup, hk]
    · simp [dictLookup, hk, ih]

theorem dictLookup_eraseKey_ne {k k' : GKey} {m : List (GKey × Nat)}
    (h : k ≠ k') : dictLookup k (dictEraseKey k' m) = dictLookup k m := by
  induction m with
  | nil => rfl
  | cons hd t ih =>
    obtain ⟨k'', v⟩ := hd
    by_cases hk : k'' = k'
    · subst hk
      simp [dictEraseKey, dictLookup, Ne.symm h]
    · by_cases hk2 : k'' = k
      · simp [dictEraseKey, dictLookup, hk, hk2, h]
      · simp [dictEraseKey, dictLookup, hk, hk2, ih]

theorem dictLookup_update_self {k : GKey} {v : Nat}
    {m : List (GKey × Nat)} : dictLookup k (dictUpdate k v m) = some v := by
  induction m with
  | nil => simp [dictUpdate, dictLookup]
  | cons hd t ih =>
    obtain ⟨k', v'⟩ := hd
    by_cases hk : k' = k
    · simp [dictUpdate, dictLookup, hk]
    · simp [dictUpdate, dictLookup, hk, ih]

theorem dictLookup_update_ne {k k' : GKey} {v : Nat}
    {m : List (GKey × Nat)} (h : k ≠ k') :
    dictLookup k (dictUpdate k' v m) = dictLookup k m := by
  induction m with
  | nil => simp [dictUpdate, dictLookup, Ne.symm h]
  | cons hd t ih =>
    obtain ⟨k'', v''⟩ := hd
    by_cases hk : k'' = k'
    · subst hk
      simp [dictUpdate, dictLookup, Ne.symm h]
    · by_cases hk2 : k'' = k
      · simp [dictUpdate, dictLookup, hk, hk2, h]
      · simp [dictUpdate, dictLookup, hk, hk2, ih]

theorem dictEraseKey_sublist (k : GKey) (m : List (GKey × Nat)) :
    (dictEraseKey k m).Sublist m := by
  induction m with
  | nil => simp [dictEraseKey]
  | cons hd t ih =>
    obtain ⟨k', v⟩ := hd
    by_cases hk : k' = k
    · simp only [dictEraseKey, hk, if_pos]
      exact List.sublist_cons_self _ _
    · simp only [dictEraseKey, hk, if_neg, if_false]
      exact ih.cons₂ (k', v)

theorem dictLookup_eraseKey_self {k : GKey} {m : List (GKey × Nat)}
    (h : (m.map (fun kv => kv.1)).Nodup) :
    dictLookup k (dictEraseKey k m) = none := by
  cases hl : dictLookup k m with
  | none => rw [dictEraseKey_of_lookup_none hl]; exact hl
  | some v =>
    obtain ⟨l1, l2, hm, hl1, he⟩ := dictLookup_some_decomp hl
    rw [he, dictLookup_append]
    rw [hm] at h
    simp only [List.map_append, List.map_cons, List.nodup_append,
      List.nodup_cons] at h
    have hk2 : k ∉ l2.map (fun kv => kv.1) := h.2.1.1
    have h2 : ∀ kv ∈ l2, kv.1 ≠ k := by
      intro kv hkv heq
      exact hk2 (heq ▸ List.mem_map_of_mem (fun kv => kv.1) hkv)
    simp [dictLookup_eq_none.mpr hl1, dictLookup_eq_none.mpr h2]

/-- The Grid (src/main.py 147-439).  `mapping` is the EntityLocations dict
(entries in Python dict insertion order, keys unique), `entities` the
insertion-ordered entity list, and `heap` the object store mapping each
entity identifier to its current state. -/
structure Grid where
  size : Nat
  mapping : List (GKey × Nat)
  entities : List Nat
  heap : List (Nat × EntityData)
deriving DecidableEq

/-- Object-store lookup for an entity identifier. -/
def heapLookup (u : Nat) : List (Nat × EntityData) → Option EntityData
  | [] => none
  | (u', d) :: t => if u' = u then some d else heapLookup u t

/-- Object-store in-place mutation of one entity's state. -/
def heapUpdate (u : Nat) (d : EntityData) :
    List (Nat × EntityData) → List (Nat × EntityData)
  | [] => [(u, d)]
  | (u', d') :: t =>
    if u' = u then (u', d) :: t else (u', d') :: heapUpdate u d t

/-- Grid.in_bounds (src/main.py 199-222): both coordinates in [0, size). -/
def Grid.in_bounds (g : Grid) (position : Position) : Bool :=
  decide (0 ≤ position.x) && decide (position.x < (g.size : Int)) &&
    decide (0 ≤ position.y) && decide (position.y < (g.size : Int))

/-- Grid.add_entity (src/main.py 224-259): no-op when out of bounds;
otherwise pop any occupant of the cell from the dict, remove it from the
entity list, then insert the new entity into the dict (the key is absent
after the pop, so the entry is appended) and append it to the entity list. -/
def Grid.add_entity (g : Grid) (position : Position) (entity : Nat) : Grid :=
  if g.in_bounds position = false then g
  else
    match dictLookup (position.x, position.y) g.mapping with
    | some removed =>
      { g with
        mapping := dictUpdate (position.x, position.y) entity
          (dictEraseKey (position.x, position.y) g.mapping)
        entities := g.entities.erase removed ++ [entity] }
    | none =>
      { g with
        mapping := dictUpdate (position.x, position.y) entity
          (dictEraseKey (position.x, position.y) g.mapping)
        entities := g.entities ++ [entity] }

/-- Grid.remove_entity (src/main.py 261-286): no-op when out of bounds or
empty; otherwise pop the occupant from the dict and remove it from the
entity list. -/
def Grid.remove_entity (g : Grid) (position : Position) : Grid :=
  if g.in_bounds position = false then g
  else
    match dictLookup (position.x, position.y) g.mapping with
    | some occupant =>
      { g with
        mapping := dictEraseKey (position.x, position.y) g.mapping
        entities := g.entities.erase occupant }
    | none => g

/-- Grid.get_entity (src/main.py 288-311): absent when out of bounds or
empty. -/
def Grid.get_entity (g : Grid) (position : Position) : Option Nat :=
  if g.in_bounds position = false then none
  else dictLookup (position.x, position.y) g.mapping

/-- Grid.move_entity (src/main.py 351-393): no-op when either position is
out of bounds or the start is empty; otherwise pop the start occupant from
the dict (it stays in the entity list), evict any end occupant via
remove_entity, then insert the moved entity at the end key (absent, so the
entry is appended at the end of the dict order). -/
def Grid.move_entity (g : Grid) (start finish : Position) : Grid :=
  if g.in_bounds start = false ∨ g.in_bounds finish = false then g
  else
    match dictLookup (start.x, start.y) g.mapping with
    | none => g
    | some moved =>
      let g1 : Grid :=
        { g with mapping := dictEraseKey (start.x, start.y) g.mapping }
      let g2 := g1.remove_entity finish
      { g2 with
        mapping := dictUpdate (finish.x, finish.y) moved g2.mapping }

/-- isinstance(e, Player) for the entity behind an identifier: Player,
VulnerablePlayer and HoldingPlayer are Player-kind. -/
def EntityData.isPlayer : EntityData → Bool
  | .player => true
  | .vulnerablePlayer _ => true
  | .holdingPlayer _ _ => true
  | _ => false

/-- isinstance(e, Zombie) for the entity behind an identifier: Zombie and
TrackingZombie are Zombie-kind. -/
def EntityData.isZombie : EntityData → Bool
  | .zombie => true
  | .trackingZombie => true
  | _ => false

/-- Whether the object behind identifier `u` is a Player-kind entity. -/
def Grid.entityIsPlayer (g : Grid) (u : Nat) : Bool :=
  match heapLookup u g.heap with
  | some d => d.isPlayer
  | none => false

/-- Whether the object behind identifier `u` is a Zombie-kind entity. -/
def Grid.entityIsZombie (g : Grid) (u : Nat) : Bool :=
  match heapLookup u g.heap with
  | some d => d.isZombie
  | none => false

/-- Grid.find_player (src/main.py 395-413): scan the EntityLocations dict
in its iteration (insertion) order for the first Player-kind occupant and
return its position. -/
def Grid.find_player (g : Grid) : Option Position :=
  match g.mapping.find? (fun kv => g.entityIsPlayer kv.2) with
  | some kv => some ⟨kv.1.1, kv.1.2⟩
  | none => none

/-- Grid.get_mapping (src/main.py 313-336): rebuild a Position-keyed dict
from the EntityLocations entries; with unique keys this is the same list of
pairs in the same order. -/
def Grid.get_mapping (g : Grid) : List (Position × Nat) :=
  g.mapping.map (fun kv => (⟨kv.1.1, kv.1.2⟩, kv.2))

/-- The spec's reading of C9, for comparison with `Grid.find_player`: scan
the ordered entity collection (`entities`, insertion order) for the first
Player-kind entity and report the position it occupies in the mapping. -/
def Grid.find_player_by_entities (g : Grid) : Option Position :=
  match g.entities.find? (fun u => g.entityIsPlayer u) with
  | some u =>
    match g.mapping.find? (fun kv => kv.2 == u) with
    | some kv => some ⟨kv.1.1, kv.1.2⟩
    | none => none
  | none => none

/-- The data-model invariant of C6: the dict's keys are unique (inherent to
a Python dict), and every entity in the mapping appears exactly once in the
ordered entity collection and vice versa (the entity list is duplicate-free
and is a permutation of the mapping's values). -/
def Grid.Inv (g : Grid) : Prop :=
  (g.mapping.map (fun kv => kv.1)).Nodup ∧ g.entities.Nodup ∧
    g.entities.Perm (g.mapping.map (fun kv => kv.2))

instance (g : Grid) : Decidable g.Inv := by
  unfold Grid.Inv
  infer_instance

theorem mem_of_dictLookup {k : GKey} {m : List (GKey × Nat)} {v : Nat}
    (h : dictLookup k m = some v) : (k, v) ∈ m := by
  induction m with
  | nil => simp [dictLookup] at h
  | cons hd t ih =>
    obtain ⟨k', v'⟩ := hd
    by_cases hk : k' = k
    · simp only [dictLookup] at h
      rw [if_pos hk] at h
      injection h with hv
      subst hv
      rw [← hk]
      exact List.mem_cons_self _ _
    · simp only [dictLookup, hk, if_neg, if_false] at h
      exact List.mem_cons_of_mem _ (ih h)

theorem dict_value_unique {m : List (GKey × Nat)}
    (hv : (m.map (fun kv => kv.2)).Nodup) {k1 k2 : GKey} {v : Nat}
    (h1 : (k1, v) ∈ m) (h2 : (k2, v) ∈ m) : k1 = k2 := by
  induction m with
  | nil => simp at h1
  | cons hd t ih =>
    obtain ⟨k', v'⟩ := hd
    simp only [List.map_cons, List.nodup_cons] at hv
    rcases List.mem_cons.mp h1 with e1 | m1 <;>
      rcases List.mem_cons.mp h2 with e2 | m2
    · rw [Prod.mk.injEq] at e1 e2
      rw [e1.1, e2.1]
    · exfalso
      apply hv.1
      rw [Prod.mk.injEq] at e1
      exact e1.2 ▸ List.mem_map_of_mem (fun kv => kv.2) m2
    · exfalso
      apply hv.1
      rw [Prod.mk.injEq] at e2
      exact e2.2 ▸ List.mem_map_of_mem (fun kv => kv.2) m1
    · exact ih hv.2 m1 m2

theorem mem_dictEraseKey {k : GKey} {m : List (GKey × Nat)}
    {kv : GKey × Nat} (hkeys : (m.map (fun x => x.1)).Nodup)
    (h : kv ∈ dictEraseKey k m) : kv ∈ m ∧ kv.1 ≠ k := by
  induction m with
  | nil => simp [dictEraseKey] at h
  | cons hd t ih =>
    obtain ⟨k', v'⟩ := hd
    simp only [List.map_cons, List.nodup_cons] at hkeys
    by_cases hk : k' = k
    · subst hk
      simp only [dictEraseKey, if_pos rfl] at h
      refine ⟨List.mem_cons_of_mem _ h, ?_⟩
      intro heq
      exact hkeys.1 (heq ▸ List.mem_map_of_mem (fun x => x.1) h)
    · simp only [dictEraseKey, hk, if_neg, if_false] at h
      rcases List.mem_cons.mp h with e1 | m1
      · subst e1
        exact ⟨List.mem_cons_self _ _, hk⟩
      · obtain ⟨hmem, hne⟩ := ih hkeys.2 m1
        exact ⟨List.mem_cons_of_mem _ hmem, hne⟩

/-- With both positions in bounds, distinct keys and the start occupied,
Grid.move_entity pops the start entry, evicts any occupant of the end cell
from both structures, and appends the moved entity's entry at the end key
(at the end of the dict's iteration order); the moved entity's slot in the
entity list is untouched. -/
theorem move_entity_unfold (g : Grid) (s e : Position) (X : Nat)
    (hkeys : (g.mapping.map (fun kv => kv.1)).Nodup)
    (hs : g.in_bounds s = true) (he : g.in_bounds e = true)
    (hne : ((s.x, s.y) : GKey) ≠ (e.x, e.y))
    (hX : dictLookup (s.x, s.y) g.mapping = some X) :
    g.move_entity s e =
      { g with
        mapping :=
          dictEraseKey (e.x, e.y) (dictEraseKey (s.x, s.y) g.mapping) ++
            [((e.x, e.y), X)]
        entities :=
          match dictLookup (e.x, e.y) g.mapping with
          | some Y => g.entities.erase Y
          | none => g.entities } := by
  have hkeys1 : ((dictEraseKey (s.x, s.y) g.mapping).map
      (fun kv => kv.1)).Nodup :=
    List.Nodup.sublist
      ((dictEraseKey_sublist (s.x, s.y) g.mapping).map (fun kv => kv.1))
      hkeys
  have hlook1 : dictLookup (e.x, e.y) (dictEraseKey (s.x, s.y) g.mapping) =
      dictLookup (e.x, e.y) g.mapping :=
    dictLookup_eraseKey_ne (Ne.symm hne)
  have hin : ∀ (mp : List (GKey × Nat)) (en : List Nat),
      (Grid.mk g.size mp en g.heap).in_bounds e = g.in_bounds e :=
    fun _ _ => rfl
  unfold Grid.move_entity Grid.remove_entity
  simp only [hin, hs, he, hX]
  rw [hlook1]
  cases hY : dictLookup (e.x, e.y) g.mapping with
  | none =>
    have he1 : dictEraseKey (e.x, e.y)
        (dictEraseKey (s.x, s.y) g.mapping) =
        dictEraseKey (s.x, s.y) g.mapping :=
      dictEraseKey_of_lookup_none (hlook1.trans hY)
    have hu : dictUpdate (e.x, e.y) X (dictEraseKey (s.x, s.y) g.mapping) =
        dictEraseKey (s.x, s.y) g.mapping ++ [((e.x, e.y), X)] :=
      dictUpdate_of_lookup_none (hlook1.trans hY)
    simp only [hY]
    simp [hu, he1]
  | some Y =>
    have hself : dictLookup (e.x, e.y) (dictEraseKey (e.x, e.y)
        (dictEraseKey (s.x, s.y) g.mapping)) = none :=
      dictLookup_eraseKey_self hkeys1
    have hu : dictUpdate (e.x, e.y) X (dictEraseKey (e.x, e.y)
        (dictEraseKey (s.x, s.y) g.mapping)) =
        dictEraseKey (e.x, e.y) (dictEraseKey (s.x, s.y) g.mapping) ++
          [((e.x, e.y), X)] :=
      dictUpdate_of_lookup_none hself
    simp only [hY]
    simp [hu]

/-- A 2x2 grid holding the single entity 0 (a plain player) at (0, 0). -/
def gridC5 : Grid :=
  ({ size := 2, mapping := [], entities := [], heap := [(0, .player)] } :
    Grid).add_entity ⟨0, 0⟩ 0

/-- C5 counterexample: the claim quantifies over all in-bounds pairs
including s = e, and asserts that afterwards position s is empty.  For
s = e = (0, 0) on a grid where (0, 0) holds entity 0, move_entity pops the
entry and re-inserts it at the same key, so s still holds the entity:
"get_entity(s) is absent" is false. -/
theorem move_entity_self_counterexample :
    gridC5.in_bounds ⟨0, 0⟩ = true ∧
    gridC5.get_entity ⟨0, 0⟩ = some 0 ∧
    ¬ ((gridC5.move_entity ⟨0, 0⟩ ⟨0, 0⟩).get_entity ⟨0, 0⟩ = none) := by
  decide

/-- C5 as amended: for in-bounds s ≠ e with s holding X (on a grid whose
dict keys are unique, as in any Python dict), after move_entity(s, e) the
start is empty, the end holds X, every other cell is unchanged, the entity
list loses exactly any prior occupant of e (X's slot is untouched), and —
when the grid also satisfies the one-slot-per-entity invariant — the prior
occupant of e is gone from both the mapping and the entity list. -/
theorem move_entity_spec (g : Grid) (s e : Position) (X : Nat)
    (hkeys : (g.mapping.map (fun kv => kv.1)).Nodup)
    (hs : g.in_bounds s = true) (he : g.in_bounds e = true)
    (hne : s ≠ e) (hX : g.get_entity s = some X) :
    (g.move_entity s e).get_entity s = none ∧
    (g.move_entity s e).get_entity e = some X ∧
    (∀ p, p ≠ s → p ≠ e →
      (g.move_entity s e).get_entity p = g.get_entity p) ∧
    ((g.move_entity s e).entities =
      match g.get_entity e with
      | some Y => g.entities.erase Y
      | none => g.entities) ∧
    (g.entities.Nodup → (g.mapping.map (fun kv => kv.2)).Nodup →
      ∀ Y, g.get_entity e = some Y →
        (∀ kv ∈ (g.move_entity s e).mapping, kv.2 ≠ Y) ∧
        Y ∉ (g.move_entity s e).entities) := by
  have hkne : ((s.x, s.y) : GKey) ≠ (e.x, e.y) := by
    intro hk
    apply hne
    cases s
    cases e
    simp only [Prod.mk.injEq] at hk
    simp [hk.1, hk.2]
  have hXl : dictLookup (s.x, s.y) g.mapping = some X := by
    unfold Grid.get_entity at hX
    rw [hs] at hX
    simpa using hX
  have hkeys1 : ((dictEraseKey (s.x, s.y) g.mapping).map
      (fun kv => kv.1)).Nodup :=
    List.Nodup.sublist
      ((dictEraseKey_sublist (s.x, s.y) g.mapping).map (fun kv => kv.1))
      hkeys
  have hunf := move_entity_unfold g s e X hkeys hs he hkne hXl
  have hge : g.get_entity e = dictLookup (e.x, e.y) g.mapping := by
    unfold Grid.get_entity
    rw [he]
    simp
  refine ⟨?_, ?_, ?_, ?_, ?_⟩
  · rw [hunf]
    unfold Grid.get_entity
    have : (({ g with
        mapping :=
          dictEraseKey (e.x, e.y) (dictEraseKey (s.x, s.y) g.mapping) ++
            [((e.x, e.y), X)]
        entities :=
          match dictLookup (e.x, e.y) g.mapping with
          | some Y => g.entities.erase Y
          | none => g.entities } : Grid)).in_bounds s = g.in_bounds s := rfl
    rw [this, hs]
    simp only [Bool.true_eq_false, if_neg, if_false]
    rw [dictLookup_append]
    rw [dictLookup_eraseKey_ne hkne, dictLookup_eraseKey_self hkeys]
    simp [dictLookup, Ne.symm hkne]
  · rw [hunf]
    unfold Grid.get_entity
    have : (({ g with
        mapping :=
          dictEraseKey (e.x, e.y) (dictEraseKey (s.x, s.y) g.mapping) ++
            [((e.x, e.y), X)]
        entities :=
          match dictLookup (e.x, e.y) g.mapping with
          | some Y => g.entities.erase Y
          | none => g.entities } : Grid)).in_bounds e = g.in_bounds e := rfl
    rw [this, he]
    simp only [Bool.true_eq_false, if_neg, if_false]
    rw [dictLookup_append]
    rw [dictLookup_eraseKey_self hkeys1]
    simp [dictLookup]
  · intro p hps hpe
    have hpks : ((p.x, p.y) : GKey) ≠ (s.x, s.y) := by
      intro hk
      apply hps
      cases p
      cases s
      simp only [Prod.mk.injEq] at hk
      simp [hk.1, hk.2]
    have hpke : ((p.x, p.y) : GKey) ≠ (e.x, e.y) := by
      intro hk
      apply hpe
      cases p
      cases e
      simp only [Prod.mk.injEq] at hk
      simp [hk.1, hk.2]
    rw [hunf]
    unfold Grid.get_entity
    have hbp : (({ g with
        mapping :=
          dictEraseKey (e.x, e.y) (dictEraseKey (s.x, s.y) g.mapping) ++
            [((e.x, e.y), X)]
        entities :=
          match dictLookup (e.x, e.y) g.mapping with
          | some Y => g.entities.erase Y
          | none => g.entities } : Grid)).in_bounds p = g.in_bounds p := rfl
    rw [hbp]
    cases hb : g.in_bounds p with
    | false => simp
    | true =>
      simp only [Bool.true_eq_false, if_neg, if_false]
      rw [dictLookup_append]
      rw [dictLookup_eraseKey_ne hpke, dictLookup_eraseKey_ne hpks]
      cases hlp : dictLookup (p.x, p.y) g.mapping with
      | some v => simp
      | none => simp [dictLookup, Ne.symm hpke]
  · rw [hunf, hge]
  · intro hent hvals Y hY
    rw [hge] at hY
    have hYmem : ((e.x, e.y), Y) ∈ g.mapping := mem_of_dictLookup hY
    have hXmem : ((s.x, s.y), X) ∈ g.mapping := mem_of_dictLookup hXl
    have hXY : X ≠ Y := by
      intro hxy
      subst hxy
      exact hkne (dict_value_unique hvals hXmem hYmem)
    constructor
    · intro kv hkv
      rw [hunf] at hkv
      simp only at hkv
      rcases List.mem_append.mp hkv with hin | hin
      · obtain ⟨hin1, hne1⟩ := mem_dictEraseKey hkeys1 hin
        obtain ⟨hin2, hne2⟩ := mem_dictEraseKey hkeys hin1
        intro hv
        have hkv2 : ((kv.1, Y) : GKey × Nat) ∈ g.mapping := by
          have hkv : kv = (kv.1, Y) := by
            obtain ⟨a, b⟩ := kv
            simp only at hv
            rw [hv]
          exact hkv ▸ hin2
        exact hne1 (dict_value_unique hvals hkv2 hYmem)
      · simp only [List.mem_singleton] at hin
        subst hin
        exact hXY
    · rw [hunf]
      simp only [hY]
      rw [List.Nodup.mem_erase_iff hent]
      simp

/-- Witness for C5's amended theorem at the concrete grid `gridC5`:
moving the entity at (0, 0) to the distinct in-bounds cell (1, 1) empties
the start and places the entity at the end. -/
theorem move_entity_spec_witness :
    (gridC5.move_entity ⟨0, 0⟩ ⟨1, 1⟩).get_entity ⟨0, 0⟩ = none ∧
    (gridC5.move_entity ⟨0, 0⟩ ⟨1, 1⟩).get_entity ⟨1, 1⟩ = some 0 :=
  ⟨(move_entity_spec gridC5 ⟨0, 0⟩ ⟨1, 1⟩ 0 (by decide) (by decide)
      (by decide) (by decide) (by decide)).1,
   (move_entity_spec gridC5 ⟨0, 0⟩ ⟨1, 1⟩ 0 (by decide) (by decide)
      (by decide) (by decide) (by decide)).2.1⟩

/-- A 3x3 grid with two vulnerable players: entity 0 added at (0, 0), then
entity 1 added at (1, 1), then entity 0 moved to (0, 2).  After the move the
dict iteration order is [(1, 1) -> 1, (0, 2) -> 0] while the ordered entity
collection is still [0, 1]. -/
def gridC9 : Grid :=
  ((({ size := 3, mapping := [], entities := [],
        heap := [(0, .vulnerablePlayer false), (1, .vulnerablePlayer false)] } :
      Grid).add_entity ⟨0, 0⟩ 0).add_entity ⟨1, 1⟩ 1).move_entity
    ⟨0, 0⟩ ⟨0, 2⟩

/-- C9 counterexample: find_player scans the EntityLocations dict in its
own insertion order, which move_entity changes (a moved entity's entry is
re-appended at the end), not the ordered entity collection's order.  On
`gridC9` the code returns the position of entity 1 at (1, 1), while the
first Player-kind entity of the ordered collection is entity 0, at (0, 2). -/
theorem find_player_order_counterexample :
    gridC9.find_player = some ⟨1, 1⟩ ∧
    gridC9.find_player_by_entities = some ⟨0, 2⟩ ∧
    gridC9.find_player ≠ gridC9.find_player_by_entities := by
  decide

/-- C9 as amended: find_player returns the position of the first
Player-kind occupant when the entries are scanned in the position dict's
insertion order (which coincides with ordered-collection order only while
no relocation has reordered the dict, in particular whenever the grid holds
at most one Player-kind entity), and absent when no Player-kind entity is
present. -/
theorem find_player_first_in_mapping_order (g : Grid) :
    (g.find_player = none ↔
      ∀ kv ∈ g.mapping, g.entityIsPlayer kv.2 = false) ∧
    (∀ p : Position, g.find_player = some p →
      ∃ l1 u l2, g.mapping = l1 ++ ((p.x, p.y), u) :: l2 ∧
        g.entityIsPlayer u = true ∧
        ∀ kv ∈ l1, g.entityIsPlayer kv.2 = false) := by
  constructor
  · constructor
    · intro h kv hkv
      unfold Grid.find_player at h
      cases hf : g.mapping.find? (fun kv => g.entityIsPlayer kv.2) with
      | none =>
        have := List.find?_eq_none.mp hf kv hkv
        simpa using this
      | some kv' =>
        rw [hf] at h
        simp at h
    · intro hall
      unfold Grid.find_player
      have hf : g.mapping.find? (fun kv => g.entityIsPlayer kv.2) = none :=
        List.find?_eq_none.mpr (fun kv hkv => by simp [hall kv hkv])
      rw [hf]
  · intro p hp
    unfold Grid.find_player at hp
    cases hf : g.mapping.find? (fun kv => g.entityIsPlayer kv.2) with
    | none =>
      rw [hf] at hp
      simp at hp
    | some kv =>
      rw [hf] at hp
      obtain ⟨⟨a, b⟩, u⟩ := kv
      simp only [Option.some.injEq] at hp
      obtain ⟨hpk, as1, bs1, hsplit, hprev⟩ := List.find?_eq_some.mp hf
      refine ⟨as1, u, bs1, ?_, hpk, ?_⟩
      · rw [hsplit, ← hp]
      · intro kv' hkv'
        have := hprev kv' hkv'
        simpa using this

theorem dict_key_unique {m : List (GKey × Nat)}
    (hk : (m.map (fun kv => kv.1)).Nodup) {k : GKey} {v1 v2 : Nat}
    (h1 : (k, v1) ∈ m) (h2 : (k, v2) ∈ m) : v1 = v2 := by
  induction m with
  | nil => simp at h1
  | cons hd t ih =>
    obtain ⟨k', v'⟩ := hd
    simp only [List.map_cons, List.nodup_cons] at hk
    rcases List.mem_cons.mp h1 with e1 | m1 <;>
      rcases List.mem_cons.mp h2 with e2 | m2
    · rw [Prod.mk.injEq] at e1 e2
      rw [e1.2, e2.2]
    · exfalso
      apply hk.1
      rw [Prod.mk.injEq] at e1
      exact e1.1 ▸ List.mem_map_of_mem (fun kv => kv.1) m2
    · exfalso
      apply hk.1
      rw [Prod.mk.injEq] at e2
      exact e2.1 ▸ List.mem_map_of_mem (fun kv => kv.1) m1
    · exact ih hk.2 m1 m2

theorem add_entity_preserves_inv (g : Grid) (p : Position) (u : Nat)
    (hInv : g.Inv)
    (hfresh : ∀ kv ∈ g.mapping, kv.2 = u → kv.1 = (p.x, p.y)) :
    (g.add_entity p u).Inv := by
  obtain ⟨hkeys, hent, hperm⟩ := hInv
  by_cases hb : g.in_bounds p = false
  · simpa [Grid.add_entity, hb] using ⟨hkeys, hent, hperm⟩
  · simp only [Bool.not_eq_false] at hb
    have hvals : (g.mapping.map (fun kv => kv.2)).Nodup := hperm.nodup hent
    cases hl : dictLookup (p.x, p.y) g.mapping with
    | none =>
      have he : dictEraseKey (p.x, p.y) g.mapping = g.mapping :=
        dictEraseKey_of_lookup_none hl
      have hu : dictUpdate (p.x, p.y) u (dictEraseKey (p.x, p.y) g.mapping) =
          g.mapping ++ [((p.x, p.y), u)] := by
        rw [he]
        exact dictUpdate_of_lookup_none hl
      have hnotin : u ∉ g.entities := by
        intro hmem
        have hmv : u ∈ g.mapping.map (fun kv => kv.2) := hperm.mem_iff.mp hmem
        obtain ⟨kv, hkv, hkvu⟩ := List.mem_map.mp hmv
        have hkey := hfresh kv hkv hkvu
        exact (dictLookup_eq_none.mp hl kv hkv) hkey
      have hknotin : ((p.x, p.y) : GKey) ∉ g.mapping.map (fun kv => kv.1) := by
        intro hmem
        obtain ⟨kv, hkv, hkvk⟩ := List.mem_map.mp hmem
        exact (dictLookup_eq_none.mp hl kv hkv) hkvk
      simp only [Grid.add_entity, hb, hl, Bool.true_eq_false, if_false]
      rw [hu]
      refine ⟨?_, ?_, ?_⟩
      · simp only [List.map_append, List.map_cons, List.map_nil]
        rw [List.nodup_append]
        exact ⟨hkeys, by simp, by
          intro a ha hb2
          simp only [List.mem_singleton] at hb2
          exact hknotin (hb2 ▸ ha)⟩
      · rw [List.nodup_append]
        exact ⟨hent, by simp, by
          intro a ha hb2
          simp only [List.mem_singleton] at hb2
          exact hnotin (hb2 ▸ ha)⟩
      · simp only [List.map_append, List.map_cons, List.map_nil]
        exact hperm.append_right [u]
    | some r =>
      obtain ⟨l1, l2, hm, hl1, herase⟩ := dictLookup_some_decomp hl
      have hself : dictLookup (p.x, p.y)
          (dictEraseKey (p.x, p.y) g.mapping) = none :=
        dictLookup_eraseKey_self hkeys
      have hu : dictUpdate (p.x, p.y) u (dictEraseKey (p.x, p.y) g.mapping) =
          (l1 ++ l2) ++ [((p.x, p.y), u)] := by
        rw [dictUpdate_of_lookup_none hself, herase]
      have hkeys2 : (l1.map (fun kv => kv.1) ++ ((p.x, p.y) : GKey) ::
          l2.map (fun kv => kv.1)).Nodup := by
        have : g.mapping.map (fun kv => kv.1) =
            l1.map (fun kv => kv.1) ++ (p.x, p.y) ::
              l2.map (fun kv => kv.1) := by
          rw [hm]; simp
        rw [← this]
        exact hkeys
      have hvals2 : (l1.map (fun kv => kv.2) ++ r ::
          l2.map (fun kv => kv.2)).Nodup := by
        have : g.mapping.map (fun kv => kv.2) =
            l1.map (fun kv => kv.2) ++ r :: l2.map (fun kv => kv.2) := by
          rw [hm]; simp
        rw [← this]
        exact hvals
      rw [List.nodup_middle, List.nodup_cons] at hkeys2 hvals2
      have hrMem : ((p.x, p.y), r) ∈ g.mapping := mem_of_dictLookup hl
      have hperm2 : g.entities.Perm
          (l1.map (fun kv => kv.2) ++ r :: l2.map (fun kv => kv.2)) := by
        have : g.mapping.map (fun kv => kv.2) =
            l1.map (fun kv => kv.2) ++ r :: l2.map (fun kv => kv.2) := by
          rw [hm]; simp
        rw [← this]
        exact hperm
      have hpermE : (g.entities.erase r).Perm
          (l1.map (fun kv => kv.2) ++ l2.map (fun kv => kv.2)) := by
        have h1 := hperm2.erase r
        rw [List.erase_append_right _ (fun hmem =>
          hvals2.1 (List.mem_append_left _ hmem))] at h1
        rw [List.erase_cons_head] at h1
        exact h1
      have hnotin : u ∉ g.entities.erase r := by
        by_cases hur : u = r
        · subst hur
          rw [List.Nodup.mem_erase_iff hent]
          simp
        · intro hmem
          have hmem2 : u ∈ g.entities := List.mem_of_mem_erase hmem
          have hmv : u ∈ g.mapping.map (fun kv => kv.2) :=
            hperm.mem_iff.mp hmem2
          obtain ⟨kv, hkv, hkvu⟩ := List.mem_map.mp hmv
          have hkey := hfresh kv hkv hkvu
          have hkvEq : kv = ((p.x, p.y), u) := by
            obtain ⟨a, b⟩ := kv
            simp only at hkey hkvu
            rw [hkey, hkvu]
          rw [hkvEq] at hkv
          exact hur (dict_key_unique hkeys hkv hrMem)
      simp only [Grid.add_entity, hb, hl, Bool.true_eq_false, if_false]
      rw [hu]
      refine ⟨?_, ?_, ?_⟩
      · simp only [List.map_append, List.map_cons, List.map_nil]
        rw [List.nodup_append]
        refine ⟨hkeys2.2, by simp, ?_⟩
        intro a ha hb2
        simp only [List.mem_singleton] at hb2
        subst hb2
        exact hkeys2.1 (by simpa using ha)
      · rw [List.nodup_append]
        exact ⟨hent.erase r, by simp, by
          intro a ha hb2
          simp only [List.mem_singleton] at hb2
          exact hnotin (hb2 ▸ ha)⟩
      · simp only [List.map_append, List.map_cons, List.map_nil]
        have h2 := hpermE.append_right [u]
        rw [List.append_assoc] at h2
        simpa using h2

theorem remove_entity_preserves_inv (g : Grid) (p : Position)
    (hInv : g.Inv) : (g.remove_entity p).Inv := by
  obtain ⟨hkeys, hent, hperm⟩ := hInv
  by_cases hb : g.in_bounds p = false
  · simpa [Grid.remove_entity, hb] using ⟨hkeys, hent, hperm⟩
  · simp only [Bool.not_eq_false] at hb
    have hvals : (g.mapping.map (fun kv => kv.2)).Nodup := hperm.nodup hent
    cases hl : dictLookup (p.x, p.y) g.mapping with
    | none =>
      simp only [Grid.remove_entity, hb, hl, Bool.true_eq_false, if_false]
      exact ⟨hkeys, hent, hperm⟩
    | some r =>
      obtain ⟨l1, l2, hm, hl1, herase⟩ := dictLookup_some_decomp hl
      have hkeys2 : (l1.map (fun kv => kv.1) ++ ((p.x, p.y) : GKey) ::
          l2.map (fun kv => kv.1)).Nodup := by
        have hh : g.mapping.map (fun kv => kv.1) =
            l1.map (fun kv => kv.1) ++ (p.x, p.y) ::
              l2.map (fun kv => kv.1) := by
          rw [hm]; simp
        rw [← hh]; exact hkeys
      have hvals2 : (l1.map (fun kv => kv.2) ++ r ::
          l2.map (fun kv => kv.2)).Nodup := by
        have hh : g.mapping.map (fun kv => kv.2) =
            l1.map (fun kv => kv.2) ++ r :: l2.map (fun kv => kv.2) := by
          rw [hm]; simp
        rw [← hh]; exact hvals
      rw [List.nodup_middle, List.nodup_cons] at hkeys2 hvals2
      have hperm2 : g.entities.Perm
          (l1.map (fun kv => kv.2) ++ r :: l2.map (fun kv => kv.2)) := by
        have hh : g.mapping.map (fun kv => kv.2) =
            l1.map (fun kv => kv.2) ++ r :: l2.map (fun kv => kv.2) := by
          rw [hm]; simp
        rw [← hh]; exact hperm
      have hpermE : (g.entities.erase r).Perm
          (l1.map (fun kv => kv.2) ++ l2.map (fun kv => kv.2)) := by
        have h1 := hperm2.erase r
        rw [List.erase_append_right _ (fun hmem =>
          hvals2.1 (List.mem_append_left _ hmem))] at h1
        rw [List.erase_cons_head] at h1
        exact h1
      simp only [Grid.remove_entity, hb, hl, Bool.true_eq_false, if_false]
      rw [herase]
      refine ⟨?_, ?_, ?_⟩
      · simp only [List.map_append]
        exact hkeys2.2
      · exact hent.erase r
      · simp only [List.map_append]
        exact hpermE

theorem move_entity_preserves_inv (g : Grid) (s e : Position)
    (hInv : g.Inv) : (g.move_entity s e).Inv := by
  obtain ⟨hkeys, hent, hperm⟩ := hInv
  by_cases hb : (g.in_bounds s = false ∨ g.in_bounds e = false)
  · simpa [Grid.move_entity, hb] using ⟨hkeys, hent, hperm⟩
  · push_neg at hb
    obtain ⟨hs0, he0⟩ := hb
    simp only [Bool.not_eq_false] at hs0 he0
    have hvals : (g.mapping.map (fun kv => kv.2)).Nodup := hperm.nodup hent
    cases hl : dictLookup (s.x, s.y) g.mapping with
    | none =>
      simp only [Grid.move_entity, hs0, he0, hl, Bool.true_eq_false,
        or_self, if_false]
      exact ⟨hkeys, hent, hperm⟩
    | some X =>
      obtain ⟨l1, l2, hm, hl1, herase⟩ := dictLookup_some_decomp hl
      have hkeys2 : (l1.map (fun kv => kv.1) ++ ((s.x, s.y) : GKey) ::
          l2.map (fun kv => kv.1)).Nodup := by
        have hh : g.mapping.map (fun kv => kv.1) =
            l1.map (fun kv => kv.1) ++ (s.x, s.y) ::
              l2.map (fun kv => kv.1) := by
          rw [hm]; simp
        rw [← hh]; exact hkeys
      have hvals2 : (l1.map (fun kv => kv.2) ++ X ::
          l2.map (fun kv => kv.2)).Nodup := by
        have hh : g.mapping.map (fun kv => kv.2) =
            l1.map (fun kv => kv.2) ++ X :: l2.map (fun kv => kv.2) := by
          rw [hm]; simp
        rw [← hh]; exact hvals
      rw [List.nodup_middle, List.nodup_cons] at hkeys2 hvals2
      have hpermX : g.entities.Perm
          (X :: (l1.map (fun kv => kv.2) ++ l2.map (fun kv => kv.2))) := by
        have hh : g.mapping.map (fun kv => kv.2) =
            l1.map (fun kv => kv.2) ++ X :: l2.map (fun kv => kv.2) := by
          rw [hm]; simp
        exact (hh ▸ hperm).trans List.perm_middle
      by_cases hk : ((s.x, s.y) : GKey) = (e.x, e.y)
      · have hself : dictLookup (e.x, e.y)
            (dictEraseKey (s.x, s.y) g.mapping) = none := by
          rw [← hk]
          exact dictLookup_eraseKey_self hkeys
        have hin : ∀ (mp : List (GKey × Nat)) (en : List Nat),
            (Grid.mk g.size mp en g.heap).in_bounds e = g.in_bounds e :=
          fun _ _ => rfl
        have hu : dictUpdate (e.x, e.y) X
            (dictEraseKey (s.x, s.y) g.mapping) =
            dictEraseKey (s.x, s.y) g.mapping ++ [((e.x, e.y), X)] :=
          dictUpdate_of_lookup_none hself
        unfold Grid.move_entity Grid.remove_entity
        simp only [hin, hs0, he0, hl, hself, Bool.true_eq_false, or_self,
          if_false]
        rw [hu, herase]
        refine ⟨?_, ?_, ?_⟩
        · simp only [List.map_append, List.map_cons, List.map_nil]
          rw [List.nodup_append]
          refine ⟨hkeys2.2, by simp, ?_⟩
          intro a ha hb2
          simp only [List.mem_singleton] at hb2
          subst hb2
          rw [← hk] at ha
          exact hkeys2.1 (by simpa using ha)
        · exact hent
        · simp only [List.map_append, List.map_cons, List.map_nil]
          exact hpermX.trans (List.perm_append_singleton X _).symm
      · rw [move_entity_unfold g s e X hkeys hs0 he0 hk hl]
        have hlook1 : dictLookup (e.x, e.y)
            (dictEraseKey (s.x, s.y) g.mapping) =
            dictLookup (e.x, e.y) g.mapping :=
          dictLookup_eraseKey_ne (Ne.symm hk)
        cases hY : dictLookup (e.x, e.y) g.mapping with
        | none =>
          have he2 : dictEraseKey (e.x, e.y)
              (dictEraseKey (s.x, s.y) g.mapping) =
              dictEraseKey (s.x, s.y) g.mapping :=
            dictEraseKey_of_lookup_none (hlook1.trans hY)
          simp only [hY, he2]
          rw [herase]
          refine ⟨?_, ?_, ?_⟩
          · simp only [List.map_append, List.map_cons, List.map_nil]
            rw [List.nodup_append]
            refine ⟨hkeys2.2, by simp, ?_⟩
            intro a ha hb2
            simp only [List.mem_singleton] at hb2
            subst hb2
            rcases List.mem_append.mp ha with h1 | h1 <;>
              obtain ⟨kv, hkv, hkva⟩ := List.mem_map.mp h1
            · exact (dictLookup_eq_none.mp hY kv
                (hm ▸ List.mem_append_left _ hkv)) hkva
            · exact (dictLookup_eq_none.mp hY kv
                (hm ▸ List.mem_append_right _ (List.mem_cons_of_mem _ hkv)))
                hkva
          · exact hent
          · simp only [List.map_append, List.map_cons, List.map_nil]
            exact hpermX.trans (List.perm_append_singleton X _).symm
        | some Y =>
          obtain ⟨m1, m2, hm2, hm1ne, herase2⟩ :=
            dictLookup_some_decomp (hlook1.trans hY)
          simp only [hY]
          rw [herase] at hm2 herase2
          rw [herase, herase2]
          have hvalsE : l1.map (fun kv => kv.2) ++ l2.map (fun kv => kv.2) =
              m1.map (fun kv => kv.2) ++ Y :: m2.map (fun kv => kv.2) := by
            rw [← List.map_append, hm2]
            simp
          have hkeysE : l1.map (fun kv => kv.1) ++ l2.map (fun kv => kv.1) =
              m1.map (fun kv => kv.1) ++ ((e.x, e.y) : GKey) ::
                m2.map (fun kv => kv.1) := by
            rw [← List.map_append, hm2]
            simp
          have hndE : (m1.map (fun kv => kv.2) ++ Y ::
              m2.map (fun kv => kv.2)).Nodup := by
            rw [← hvalsE]
            exact hvals2.2
          rw [List.nodup_middle, List.nodup_cons] at hndE
          have hXY : X ≠ Y := by
            intro hxy
            apply hvals2.1
            rw [hvalsE, hxy]
            exact List.mem_append_right _ (List.mem_cons_self _ _)
          refine ⟨?_, ?_, ?_⟩
          · simp only [List.map_append, List.map_cons, List.map_nil]
            have hkE : (m1.map (fun kv => kv.1) ++ ((e.x, e.y) : GKey) ::
                m2.map (fun kv => kv.1)).Nodup := by
              rw [← hkeysE]
              exact hkeys2.2
            rw [List.nodup_middle, List.nodup_cons] at hkE
            rw [List.nodup_append]
            refine ⟨hkE.2, by simp, ?_⟩
            intro a ha hb2
            simp only [List.mem_singleton] at hb2
            subst hb2
            exact hkE.1 (by simpa using ha)
          · exact hent.erase Y
          · simp only [List.map_append, List.map_cons, List.map_nil]
            have h1 := hpermX.erase Y
            rw [List.erase_cons_tail (by simp [hXY])] at h1
            rw [hvalsE] at h1
            rw [List.erase_append_right _ (fun hmem =>
              hndE.1 (List.mem_append_left _ hmem))] at h1
            rw [List.erase_cons_head] at h1
            exact h1.trans (List.perm_append_singleton X _).symm

/-- A 2x2 grid holding entity 0 (a plain player) at (0, 0), satisfying the
invariant. -/
def gridC6 : Grid :=
  ({ size := 2, mapping := [], entities := [], heap := [(0, .player)] } :
    Grid).add_entity ⟨0, 0⟩ 0

/-- C6 counterexample: re-adding an entity instance already present at
another position breaks the invariant — add_entity(⟨1,1⟩, 0) on a grid
where instance 0 already occupies (0, 0) leaves instance 0 at two mapping
keys and twice in the ordered entity collection. -/
theorem grid_invariant_readd_counterexample :
    gridC6.Inv ∧ ¬ (gridC6.add_entity ⟨1, 1⟩ 0).Inv := by
  decide

/-- C6 as amended: remove_entity and move_entity preserve the invariant for
every argument position; add_entity preserves it provided the added entity
instance is not already present at a different position (re-adding it at
the position it already occupies is fine; re-adding it elsewhere breaks the
invariant, as the counterexample shows). -/
theorem grid_ops_preserve_invariant :
    (∀ (g : Grid) (p : Position) (u : Nat), g.Inv →
      (∀ kv ∈ g.mapping, kv.2 = u → kv.1 = (p.x, p.y)) →
      (g.add_entity p u).Inv) ∧
    (∀ (g : Grid) (p : Position), g.Inv → (g.remove_entity p).Inv) ∧
    (∀ (g : Grid) (s e : Position), g.Inv → (g.move_entity s e).Inv) :=
  ⟨add_entity_preserves_inv, remove_entity_preserves_inv,
   move_entity_preserves_inv⟩

/-- Witness for C6's amended theorem on the concrete grid `gridC6`: adding
a fresh entity, removing a cell and moving the occupant each preserve the
invariant. -/
theorem grid_ops_preserve_invariant_witness :
    (gridC6.add_entity ⟨1, 1⟩ 1).Inv ∧
    (gridC6.remove_entity ⟨0, 0⟩).Inv ∧
    (gridC6.move_entity ⟨0, 0⟩ ⟨1, 1⟩).Inv :=
  ⟨grid_ops_preserve_invariant.1 gridC6 ⟨1, 1⟩ 1 (by decide) (by decide),
   grid_ops_preserve_invariant.2.1 gridC6 ⟨0, 0⟩ (by decide),
   grid_ops_preserve_invariant.2.2 gridC6 ⟨0, 0⟩ ⟨1, 1⟩ (by decide)⟩

/-- Witness for C9's amended theorem: on `gridC9` (where find_player
answers (1, 1)) the mapping splits at that entry, whose occupant is
Player-kind, with no Player-kind occupant before it in dict order. -/
theorem find_player_first_in_mapping_order_witness :
    ∃ l1 u l2, gridC9.mapping =
        l1 ++ (((1 : Int), (1 : Int)), u) :: l2 ∧
      gridC9.entityIsPlayer u = true ∧
      ∀ kv ∈ l1, gridC9.entityIsPlayer kv.2 = false :=
  (find_player_first_in_mapping_order gridC9).2 ⟨1, 1⟩ (by decide)

/-- The four unit offsets of the grid. -/
def unitOffsets : List Position :=
  [⟨0, 1⟩, ⟨0, -1⟩, ⟨1, 0⟩, ⟨-1, 0⟩]

/-- The Game (src/main.py 529-687): a grid and a step counter.  `rng`
threads the stream of permutations produced by `random_directions` of the
missing `main_support` module (modelled from the spec: a fresh uniformly
random ordering of the four unit offsets per invocation), made an explicit
parameter as the spec's design notes prescribe; each Zombie step consumes
one entry. -/
structure Game where
  grid : Grid
  no_steps : Nat
  rng : List (List Position)
deriving DecidableEq

/-- Game.get_grid (src/main.py 556-560). -/
def Game.get_grid (g : Game) : Grid :=
  g.grid

/-- Modelled from the spec: drawing the next permutation from the random
source (random_directions of `main_support`). -/
def Game.popRng (g : Game) : List Position × Game :=
  match g.rng with
  | [] => ([], g)
  | perm :: rest => (perm, { g with rng := rest })

/-- Game.get_player (src/main.py 562-578): the entity found at
find_player's position, absent when the grid has no player. -/
def Game.get_player (g : Game) : Option Nat :=
  match g.grid.find_player with
  | some pos => g.grid.get_entity pos
  | none => none

/-- The effect of `game.get_player().infect()` (src/main.py 901, 1077):
mutate the found player object's state through the infect dispatch.  When
the grid has no player Python would raise AttributeError on None
(unreachable: this is only run when a Player-kind entity is on the grid);
modelled as no change. -/
def heapInfect (u : Nat) (h : List (Nat × EntityData)) :
    List (Nat × EntityData) :=
  match heapLookup u h with
  | some d => heapUpdate u d.infect h
  | none => h

def Game.infectPlayer (g : Game) : Game :=
  match g.get_player with
  | some u =>
    { g with grid := { g.grid with heap := heapInfect u g.grid.heap } }
  | none => g

theorem infectPlayer_frame (g : Game) :
    g.infectPlayer.grid.mapping = g.grid.mapping ∧
    g.infectPlayer.grid.entities = g.grid.entities ∧
    g.infectPlayer.grid.size = g.grid.size ∧
    g.infectPlayer.no_steps = g.no_steps ∧
    g.infectPlayer.rng = g.rng := by
  unfold Game.infectPlayer
  cases hg : g.get_player with
  | none => exact ⟨rfl, rfl, rfl, rfl, rfl⟩
  | some u => exact ⟨rfl, rfl, rfl, rfl, rfl⟩

/-- The candidate-walking loop shared by Zombie.step (src/main.py 881-904)
and TrackingZombie.step (src/main.py 1061-1080): skip out-of-bounds
destinations; move into the first empty destination and stop; if a tried
destination holds a Player-kind entity, infect the player and stop without
moving; continue past destinations occupied by anything else. -/
def stepWalk (g : Game) (position : Position) : List Position → Game
  | [] => g
  | offset :: rest =>
    if g.grid.in_bounds (position.add offset) = false then
      stepWalk g position rest
    else
      match g.grid.get_entity (position.add offset) with
      | none =>
        { g with grid := g.grid.move_entity position (position.add offset) }
      | some entity =>
        if g.grid.entityIsPlayer entity then g.infectPlayer
        else stepWalk g position rest

/-- Zombie.step (src/main.py 860-904): walk the freshly drawn random
permutation of the unit offsets. -/
def Zombie.step (position : Position) (game : Game) : Game :=
  stepWalk game.popRng.2 position game.popRng.1

/-- The stop condition of the candidate walk: the destination must be in
bounds and either empty or held by a Player-kind entity. -/
def zombieStops (g : Game) (position offset : Position) : Bool :=
  g.grid.in_bounds (position.add offset) &&
    (match g.grid.get_entity (position.add offset) with
     | none => true
     | some entity => g.grid.entityIsPlayer entity)

/-- The candidate walk is determined by the first candidate satisfying the
stop condition: none found leaves the state unchanged; an empty
destination produces the move; a player-held destination produces the
infection without a move. -/
theorem stepWalk_find (g : Game) (position : Position)
    (cands : List Position) :
    stepWalk g position cands =
      match cands.find? (zombieStops g position) with
      | none => g
      | some o =>
        match g.grid.get_entity (position.add o) with
        | none =>
          { g with grid := g.grid.move_entity position (position.add o) }
        | some _ => g.infectPlayer := by
  induction cands with
  | nil => rfl
  | cons o rest ih =>
    by_cases hb : g.grid.in_bounds (position.add o) = false
    · have hstop : zombieStops g position o = false := by
        unfold zombieStops
        rw [hb]
        simp
      simp only [stepWalk, hb, if_true, if_pos, List.find?_cons, hstop]
      exact ih
    · simp only [Bool.not_eq_false] at hb
      cases he : g.grid.get_entity (position.add o) with
      | none =>
        have hstop : zombieStops g position o = true := by
          unfold zombieStops
          rw [hb, he]
          simp
        simp only [stepWalk, hb, Bool.true_eq_false, if_false, he,
          List.find?_cons, hstop]
      | some entity =>
        by_cases hpl : g.grid.entityIsPlayer entity = true
        · have hstop : zombieStops g position o = true := by
            unfold zombieStops
            rw [hb, he]
            simpa using hpl
          simp only [stepWalk, hb, Bool.true_eq_false, if_false, he,
            List.find?_cons, hstop, hpl, if_true]
        · simp only [Bool.not_eq_true] at hpl
          have hstop : zombieStops g position o = false := by
            unfold zombieStops
            rw [hb, he]
            simpa using hpl
          simp only [stepWalk, hb, Bool.true_eq_false, if_false, he,
            List.find?_cons, hstop, hpl, Bool.false_eq_true]
          exact ih

/-- The ordering used by TrackingZombie.step's sort (src/main.py 1054):
Python's `sorted(key=lambda x: (-x[1], x[2]))` orders ascending by the
tuple (-distance, direction-character), i.e. larger distance first, ties by
ascending character. -/
def trackingKeyLe (a b : Position × Int × Char) : Prop :=
  b.2.1 < a.2.1 ∨ (a.2.1 = b.2.1 ∧ a.2.2 ≤ b.2.2)

instance : DecidableRel trackingKeyLe := fun a b => by
  unfold trackingKeyLe
  infer_instance

instance : IsTotal (Position × Int × Char) trackingKeyLe :=
  ⟨fun a b => by
    unfold trackingKeyLe
    rcases lt_trichotomy a.2.1 b.2.1 with h | h | h
    · exact Or.inr (Or.inl h)
    · rcases le_total a.2.2 b.2.2 with hc | hc
      · exact Or.inl (Or.inr ⟨h, hc⟩)
      · exact Or.inr (Or.inr ⟨h.symm, hc⟩)
    · exact Or.inl (Or.inl h)⟩

instance : IsTrans (Position × Int × Char) trackingKeyLe :=
  ⟨fun a b c hab hbc => by
    unfold trackingKeyLe at hab hbc ⊢
    rcases hab with h1 | ⟨e1, c1⟩ <;> rcases hbc with h2 | ⟨e2, c2⟩
    · exact Or.inl (h2.trans h1)
    · exact Or.inl (by omega)
    · exact Or.inl (by omega)
    · exact Or.inr ⟨e1.trans e2, le_trans c1 c2⟩⟩

/-- The offsets/distances/directions triples zipped together by
TrackingZombie.step (src/main.py 1030-1048): offsets [S, N, E, W] paired
with the Manhattan distance from the player to each resulting position and
with the direction characters ['S', 'N', 'E', 'W']. -/
def trackingTriples (position player_position : Position) :
    List (Position × Int × Char) :=
  ([⟨0, 1⟩, ⟨0, -1⟩, ⟨1, 0⟩, ⟨-1, 0⟩] : List Position).zip
    ((([⟨0, 1⟩, ⟨0, -1⟩, ⟨1, 0⟩, ⟨-1, 0⟩] : List Position).map
        (fun o => player_position.distance (o.add position))).zip
      ['S', 'N', 'E', 'W'])

/-- The candidate order tried by TrackingZombie.step (src/main.py
1050-1063): sort the triples ascending by key (-distance, character), then
reverse, then read off the offsets.  Python's `sorted` is a stable sort,
and the four keys here are pairwise distinct (the direction characters
differ), so every sort w.r.t. this total preorder yields the same list;
insertion sort models it exactly. -/
def trackingOrder (position player_position : Position) : List Position :=
  (((trackingTriples position player_position).insertionSort
      trackingKeyLe).reverse).map (fun t => t.1)

theorem trackingTriples_explicit (position pp : Position) :
    trackingTriples position pp =
      [(⟨0, 1⟩, pp.distance (Position.add ⟨0, 1⟩ position), 'S'),
       (⟨0, -1⟩, pp.distance (Position.add ⟨0, -1⟩ position), 'N'),
       (⟨1, 0⟩, pp.distance (Position.add ⟨1, 0⟩ position), 'E'),
       (⟨-1, 0⟩, pp.distance (Position.add ⟨-1, 0⟩ position), 'W')] :=
  rfl

theorem trackingOrder_perm (position pp : Position) :
    (trackingOrder position pp).Perm unitOffsets := by
  unfold trackingOrder
  have h1 : (((trackingTriples position pp).insertionSort
      trackingKeyLe).reverse).Perm (trackingTriples position pp) :=
    (List.reverse_perm _).trans (List.perm_insertionSort _ _)
  have h2 := h1.map (fun t => t.1)
  have h3 : (trackingTriples position pp).map (fun t => t.1) =
      unitOffsets := rfl
  rw [h3] at h2
  exact h2

/-- The compass priority of the claim: West, then South, then North, then
East (anything else maps below all four; only the four unit offsets occur). -/
def compassPriority (o : Position) : Nat :=
  if o = ⟨-1, 0⟩ then 0
  else if o = ⟨0, 1⟩ then 1
  else if o = ⟨0, -1⟩ then 2
  else if o = ⟨1, 0⟩ then 3
  else 4

/-- The claim's candidate ordering: primarily ascending Manhattan distance
from the destination to the player, ties broken by the fixed compass
priority W, S, N, E. -/
def closerFirst (position pp : Position) (o1 o2 : Position) : Prop :=
  pp.distance (o1.add position) < pp.distance (o2.add position) ∨
    (pp.distance (o1.add position) = pp.distance (o2.add position) ∧
      compassPriority o1 < compassPriority o2)

theorem trackingOrder_sorted (position pp : Position) :
    (trackingOrder position pp).Pairwise (closerFirst position pp) := by
  have hperm0 := List.perm_insertionSort trackingKeyLe
    (trackingTriples position pp)
  have hnd0 : (trackingTriples position pp).Nodup := by
    rw [trackingTriples_explicit]
    simp
  have hnd : ((trackingTriples position pp).insertionSort
      trackingKeyLe).Nodup := hperm0.symm.nodup hnd0
  have hsorted : List.Pairwise (fun a b => trackingKeyLe a b)
      ((trackingTriples position pp).insertionSort trackingKeyLe) :=
    List.sorted_insertionSort trackingKeyLe _
  have hndP : List.Pairwise (fun (a b : Position × Int × Char) => a ≠ b)
      ((trackingTriples position pp).insertionSort trackingKeyLe) := hnd
  have hcomb := hsorted.and hndP
  have hQ : List.Pairwise
      (fun t1 t2 => closerFirst position pp t2.1 t1.1)
      ((trackingTriples position pp).insertionSort trackingKeyLe) := by
    refine hcomb.imp_of_mem ?_
    intro a b hma hmb hab
    obtain ⟨hr, hne⟩ := hab
    rw [hperm0.mem_iff, trackingTriples_explicit] at hma hmb
    simp only [List.mem_cons, List.not_mem_nil, or_false] at hma hmb
    unfold trackingKeyLe at hr
    unfold closerFirst
    rcases hma with rfl | rfl | rfl | rfl <;>
      rcases hmb with rfl | rfl | rfl | rfl <;>
      first
        | exact absurd rfl hne
        | (rcases hr with h | ⟨heq, hc⟩
           · exact Or.inl h
           · first
             | exact absurd hc (by dsimp only; decide)
             | exact Or.inr ⟨heq.symm, by dsimp only; decide⟩)
  unfold trackingOrder
  rw [List.pairwise_map, List.pairwise_reverse]
  exact hQ

/-- TrackingZombie.step (src/main.py 989-1080): find the player, walk the
sorted candidate list exactly as the basic Zombie does.  With no player in
the grid the Python code raises AttributeError (None.distance); that state
is unreachable in play (a Game is constructed only on a grid with a
player) and is modelled as no change. -/
def TrackingZombie.step (position : Position) (game : Game) : Game :=
  match game.grid.find_player with
  | some player_position =>
    stepWalk game position (trackingOrder position player_position)
  | none => game

/-- The per-entity step dispatch of the step event: Entity.step is a no-op
(src/main.py 21-37), inherited by Hospital, Player, VulnerablePlayer and
the pickups; HoldingPlayer.step notifies its inventory (src/main.py
1367-1378); the zombies move as above. -/
def entityStep (u : Nat) (position : Position) (game : Game) : Game :=
  match heapLookup u game.grid.heap with
  | some .zombie => Zombie.step position game
  | some .trackingZombie => TrackingZombie.step position game
  | some (.holdingPlayer inf inv) =>
    { game with grid := { game.grid with
        heap := heapUpdate u (.holdingPlayer inf inv.step) game.grid.heap } }
  | _ => game

/-- Game.step (src/main.py 580-596): increment the step counter, then
invoke each entity's step on the (position, entity) pairs of the
get_mapping snapshot taken before the loop starts. -/
def Game.step (game : Game) : Game :=
  (game.grid.get_mapping).foldl (fun st kv => entityStep kv.2 kv.1 st)
    { game with no_steps := game.no_steps + 1 }

/-- Game.step instrumented with the list of (position, entity) invocations
performed by the loop, in order. -/
def Game.stepT (game : Game) : Game × List (Position × Nat) :=
  (game.grid.get_mapping).foldl
    (fun acc kv => (entityStep kv.2 kv.1 acc.1, acc.2 ++ [(kv.1, kv.2)]))
    ({ game with no_steps := game.no_steps + 1 }, [])

theorem stepWalk_no_steps (position : Position) :
    ∀ (cands : List Position) (g : Game),
      (stepWalk g position cands).no_steps = g.no_steps := by
  intro cands
  induction cands with
  | nil => intro g; rfl
  | cons o rest ih =>
    intro g
    simp only [stepWalk]
    by_cases hb : g.grid.in_bounds (position.add o) = false
    · rw [hb, if_pos rfl]
      exact ih g
    · simp only [Bool.not_eq_false] at hb
      rw [hb, if_neg (by simp)]
      cases he : g.grid.get_entity (position.add o) with
      | none => rfl
      | some entity =>
        show (if g.grid.entityIsPlayer entity = true then g.infectPlayer
          else stepWalk g position rest).no_steps = g.no_steps
        by_cases hpl : g.grid.entityIsPlayer entity = true
        · rw [if_pos hpl]
          exact (infectPlayer_frame g).2.2.2.1
        · rw [if_neg hpl]
          exact ih g

theorem entityStep_no_steps (u : Nat) (position : Position) (g : Game) :
    (entityStep u position g).no_steps = g.no_steps := by
  unfold entityStep
  cases hh : heapLookup u g.grid.heap with
  | none => rfl
  | some d =>
    cases d with
    | zombie =>
      show (Zombie.step position g).no_steps = g.no_steps
      unfold Zombie.step
      rw [stepWalk_no_steps]
      unfold Game.popRng
      cases g.rng with
      | nil => rfl
      | cons perm rest => rfl
    | trackingZombie =>
      show (TrackingZombie.step position g).no_steps = g.no_steps
      unfold TrackingZombie.step
      cases hp : g.grid.find_player with
      | none => rfl
      | some pp => rw [stepWalk_no_steps]
    | hospital => rfl
    | player => rfl
    | vulnerablePlayer inf => rfl
    | holdingPlayer inf inv => rfl
    | pickupEntity k r => rfl

theorem foldl_entityStep_no_steps :
    ∀ (l : List (Position × Nat)) (s : Game),
      (l.foldl (fun st kv => entityStep kv.2 kv.1 st) s).no_steps =
        s.no_steps := by
  intro l
  induction l with
  | nil => intro s; rfl
  | cons kv rest ih =>
    intro s
    rw [List.foldl_cons, ih, entityStep_no_steps]

/-- The number of occurrences of a (position, entity) pair in a list. -/
def countPair (pe : Position × Nat) (l : List (Position × Nat)) : Nat :=
  (l.filter (fun x => x = pe)).length

theorem countPair_eq_zero_of_not_mem {pe : Position × Nat} :
    ∀ {l : List (Position × Nat)}, pe ∉ l → countPair pe l = 0 := by
  intro l
  induction l with
  | nil => intro _; rfl
  | cons b t ih =>
    intro hm
    unfold countPair
    rw [List.filter_cons]
    have hb : ¬ (b = pe) := fun hh => hm (hh ▸ List.mem_cons_self _ _)
    rw [if_neg (by simp [hb])]
    exact ih (fun hh => hm (List.mem_cons_of_mem _ hh))

theorem countPair_eq_one_of_mem :
    ∀ {l : List (Position × Nat)}, l.Nodup → ∀ {pe : Position × Nat},
      pe ∈ l → countPair pe l = 1 := by
  intro l
  induction l with
  | nil => intro _ pe hm; simp at hm
  | cons b t ih =>
    intro hnd pe hm
    rw [List.nodup_cons] at hnd
    unfold countPair
    rw [List.filter_cons]
    rcases List.mem_cons.mp hm with rfl | hmt
    · rw [if_pos (by simp)]
      simp only [List.length_cons]
      have h0 : countPair pe t = 0 := countPair_eq_zero_of_not_mem hnd.1
      unfold countPair at h0
      rw [h0]
    · have hb : ¬ (b = pe) := by
        intro hh
        subst hh
        exact hnd.1 hmt
      rw [if_neg (by simp [hb])]
      exact ih hnd.2 hmt

theorem foldl_stepT_split :
    ∀ (l : List (Position × Nat)) (s : Game) (t : List (Position × Nat)),
      (l.foldl
        (fun acc kv => (entityStep kv.2 kv.1 acc.1, acc.2 ++ [(kv.1, kv.2)]))
        (s, t)) =
      (l.foldl (fun st kv => entityStep kv.2 kv.1 st) s, t ++ l) := by
  intro l
  induction l with
  | nil => intro s t; simp
  | cons kv rest ih =>
    intro s t
    rw [List.foldl_cons, List.foldl_cons, ih]
    simp

/-- C3: Game.step increments step_count by exactly one, and the loop
invokes the per-turn behavior over the get_mapping snapshot taken before
any entity acts: the instrumented Game.stepT computes the same final state
and materialises the invocation list, which equals the pre-step mapping —
so each (pre-turn position, entity) pair of the start-of-turn grid is
visited exactly once (count 1, given that the snapshot is duplicate-free,
as Python dict key uniqueness guarantees), every behavior receives the
position held at the start of the turn, and an entity relocated earlier in
the turn is not revisited at its new position. -/
theorem game_step_snapshot_semantics (g : Game)
    (hnd : g.grid.get_mapping.Nodup) :
    g.step.no_steps = g.no_steps + 1 ∧
    g.stepT.2 = g.grid.get_mapping ∧
    g.stepT.1 = g.step ∧
    (∀ pe ∈ g.grid.get_mapping, countPair pe g.stepT.2 = 1) := by
  have hsplit := foldl_stepT_split g.grid.get_mapping
    { g with no_steps := g.no_steps + 1 } []
  unfold Game.stepT Game.step
  refine ⟨?_, ?_, ?_, ?_⟩
  · rw [foldl_entityStep_no_steps]
  · rw [hsplit]
    simp
  · rw [hsplit]
  · intro pe hpe
    rw [hsplit]
    simp only [List.nil_append]
    exact countPair_eq_one_of_mem hnd hpe

/-- A 3x3 game: vulnerable player (entity 0) at (0, 0), hospital (entity 1)
at (2, 2). -/
def gameC3 : Game :=
  { grid :=
      (({ size := 3, mapping := [], entities := [],
          heap := [(0, .vulnerablePlayer false), (1, .hospital)] } :
        Grid).add_entity ⟨0, 0⟩ 0).add_entity ⟨2, 2⟩ 1
    no_steps := 0
    rng := [] }

/-- Witness for C3 on the concrete game `gameC3`: one step takes the
counter from 0 to 1 and the invocation trace is exactly the pre-step
snapshot. -/
theorem game_step_snapshot_semantics_witness :
    gameC3.step.no_steps = 1 ∧
    gameC3.stepT.2 = gameC3.grid.get_mapping :=
  ⟨(game_step_snapshot_semantics gameC3 (by decide)).1,
   (game_step_snapshot_semantics gameC3 (by decide)).2.1⟩

/-- C8: for every grid state and permutation of the four unit offsets
drawn from the random source, Zombie.step is determined by the first
candidate in permutation order whose destination is in bounds and either
empty or player-held: no such candidate leaves the state (in particular
the zombie) in place; an empty destination receives the zombie via
move_entity; a player-held destination triggers the player's infect
capability with no move (Game.infectPlayer changes no occupancy).
Candidates whose destinations are out of bounds or occupied by non-players
are skipped, exactly as the find? expresses. -/
theorem zombie_step_permutation_walk (g : Game) (position : Position)
    (perm : List Position) (rest : List (List Position))
    (hrng : g.rng = perm :: rest) (hperm : perm.Perm unitOffsets) :
    Zombie.step position g =
      (match perm.find? (zombieStops { g with rng := rest } position) with
       | none => ({ g with rng := rest } : Game)
       | some o =>
         match ({ g with rng := rest } : Game).grid.get_entity
             (position.add o) with
         | none =>
           { g with rng := rest
                    grid := g.grid.move_entity position (position.add o) }
         | some _ => Game.infectPlayer { g with rng := rest }) := by
  have hpop : g.popRng = (perm, { g with rng := rest }) := by
    unfold Game.popRng
    rw [hrng]
  unfold Zombie.step
  rw [hpop]
  exact stepWalk_find { g with rng := rest } position perm

/-- A 4x4 game: vulnerable player (entity 0) at (3, 3), zombie (entity 1)
at (1, 1); the random source will produce East first. -/
def gameC8 : Game :=
  { grid :=
      (({ size := 4, mapping := [], entities := [],
          heap := [(0, .vulnerablePlayer false), (1, .zombie)] } :
        Grid).add_entity ⟨3, 3⟩ 0).add_entity ⟨1, 1⟩ 1
    no_steps := 0
    rng := [[⟨1, 0⟩, ⟨0, 1⟩, ⟨0, -1⟩, ⟨-1, 0⟩]] }

/-- Witness for C8 on `gameC8`: with permutation [E, S, N, W] and all
neighbors of (1, 1) empty, the zombie moves East to (2, 1). -/
theorem zombie_step_permutation_walk_witness :
    (Zombie.step ⟨1, 1⟩ gameC8).grid.get_entity ⟨2, 1⟩ = some 1 ∧
    (Zombie.step ⟨1, 1⟩ gameC8).grid.get_entity ⟨1, 1⟩ = none := by
  rw [zombie_step_permutation_walk gameC8 ⟨1, 1⟩
    [⟨1, 0⟩, ⟨0, 1⟩, ⟨0, -1⟩, ⟨-1, 0⟩] [] rfl (by decide)]
  decide

/-- A 6x6 game: vulnerable player (entity 0) at (2, 4), tracking zombie
(entity 1) at (1, 1); all four neighbors of (1, 1) are empty and in
bounds. -/
def gameC2 : Game :=
  { grid :=
      (({ size := 6, mapping := [], entities := [],
          heap := [(0, .vulnerablePlayer false), (1, .trackingZombie)] } :
        Grid).add_entity ⟨2, 4⟩ 0).add_entity ⟨1, 1⟩ 1
    no_steps := 0
    rng := [] }

/-- C2: for every grid containing a player, TrackingZombie.step tries the
four candidates in the order produced by the sort: a permutation of the
four unit offsets (first conjunct) ordered primarily by ascending Manhattan
distance from the destination to the player and, among equal distances, by
the fixed priority West, South, North, East (second conjunct, the
`closerFirst` pairwise ordering); the walk over that list is determined by
the first candidate whose destination is in bounds and empty (move) or
player-held (infect, no move), skipping out-of-bounds candidates (third
conjunct).  In particular, with the zombie at (1, 1) and the player at
(2, 4) on an empty-neighborhood grid the zombie moves to (1, 2) (fourth
conjunct). -/
theorem trackingZombie_step_order_and_walk (g : Game)
    (position pp : Position) (hp : g.grid.find_player = some pp) :
    (trackingOrder position pp).Perm unitOffsets ∧
    (trackingOrder position pp).Pairwise (closerFirst position pp) ∧
    (TrackingZombie.step position g =
      match (trackingOrder position pp).find? (zombieStops g position) with
      | none => g
      | some o =>
        match g.grid.get_entity (position.add o) with
        | none =>
          { g with grid := g.grid.move_entity position (position.add o) }
        | some _ => g.infectPlayer) ∧
    ((TrackingZombie.step ⟨1, 1⟩ gameC2).grid.get_entity ⟨1, 2⟩ = some 1 ∧
      (TrackingZombie.step ⟨1, 1⟩ gameC2).grid.get_entity ⟨1, 1⟩ = none) := by
  refine ⟨trackingOrder_perm position pp, trackingOrder_sorted position pp,
    ?_, ?_⟩
  · unfold TrackingZombie.step
    rw [hp]
    exact stepWalk_find g position (trackingOrder position pp)
  · decide

/-- Witness for C2 on `gameC2`: the zombie at (1, 1) moves to (1, 2), and
the candidate order is a permutation of the unit offsets. -/
theorem trackingZombie_step_order_and_walk_witness :
    ((TrackingZombie.step ⟨1, 1⟩ gameC2).grid.get_entity ⟨1, 2⟩ = some 1 ∧
      (TrackingZombie.step ⟨1, 1⟩ gameC2).grid.get_entity ⟨1, 1⟩ = none) ∧
    (trackingOrder ⟨1, 1⟩ ⟨2, 4⟩).Perm unitOffsets :=
  ⟨(trackingZombie_step_order_and_walk gameC2 ⟨1, 1⟩ ⟨2, 4⟩
      (by decide)).2.2.2,
   (trackingZombie_step_order_and_walk gameC2 ⟨1, 1⟩ ⟨2, 4⟩
      (by decide)).1⟩

/-- The frame property of one zombie step: the entity list is untouched,
the occupants are the same multiset, every entity other than the acting
zombie z keeps its exact cell, and z is either still at its pre-step
position or at a destination one unit offset away that was in bounds and
empty before the step. -/
def stepFrame (g g2 : Grid) (position : Position) (z : Nat) : Prop :=
  g2.entities = g.entities ∧
  (g2.mapping.map (fun kv => kv.2)).Perm (g.mapping.map (fun kv => kv.2)) ∧
  (∀ (k : GKey) (u : Nat), u ≠ z →
    ((k, u) ∈ g2.mapping ↔ (k, u) ∈ g.mapping)) ∧
  ((((position.x, position.y), z) ∈ g2.mapping) ∨
    ∃ o ∈ unitOffsets,
      (((position.add o).x, (position.add o).y), z) ∈ g2.mapping ∧
      g.in_bounds (position.add o) = true ∧
      g.get_entity (position.add o) = none)

theorem stepWalk_frame (g : Game) (position : Position) (z : Nat)
    (hkeys : (g.grid.mapping.map (fun kv => kv.1)).Nodup)
    (hz : g.grid.get_entity position = some z) :
    ∀ cands : List Position, cands ⊆ unitOffsets →
      stepFrame g.grid (stepWalk g position cands).grid position z := by
  have hbp : g.grid.in_bounds position = true := by
    by_cases hb : g.grid.in_bounds position = false
    · simp [Grid.get_entity, hb] at hz
    · simpa using hb
  have hzl : dictLookup (position.x, position.y) g.grid.mapping = some z := by
    unfold Grid.get_entity at hz
    rw [hbp] at hz
    simpa using hz
  have hzmem : (((position.x, position.y) : GKey), z) ∈ g.grid.mapping :=
    mem_of_dictLookup hzl
  intro cands
  induction cands with
  | nil =>
    intro _
    exact ⟨rfl, List.Perm.refl _, fun _ _ _ => Iff.rfl, Or.inl hzmem⟩
  | cons o rest ih =>
    intro hsub
    have hsub2 : rest ⊆ unitOffsets :=
      fun x hx => hsub (List.mem_cons_of_mem _ hx)
    simp only [stepWalk]
    by_cases hb : g.grid.in_bounds (position.add o) = false
    · rw [hb, if_pos rfl]
      exact ih hsub2
    · simp only [Bool.not_eq_false] at hb
      rw [hb, if_neg (by simp)]
      cases he : g.grid.get_entity (position.add o) with
      | none =>
        have hdl : dictLookup ((position.add o).x, (position.add o).y)
            g.grid.mapping = none := by
          unfold Grid.get_entity at he
          rw [hb] at he
          simpa using he
        have hkne : ((position.x, position.y) : GKey) ≠
            ((position.add o).x, (position.add o).y) := by
          intro hkk
          rw [hkk] at hzl
          exact Option.noConfusion (hzl.symm.trans hdl)
        have hunf := move_entity_unfold g.grid position (position.add o) z
          hkeys hbp hb hkne hzl
        have he2 : dictEraseKey ((position.add o).x, (position.add o).y)
            (dictEraseKey (position.x, position.y) g.grid.mapping) =
            dictEraseKey (position.x, position.y) g.grid.mapping :=
          dictEraseKey_of_lookup_none
            ((dictLookup_eraseKey_ne (Ne.symm hkne)).trans hdl)
        obtain ⟨l1, l2, hm, hl1, herase⟩ := dictLookup_some_decomp hzl
        show stepFrame g.grid (g.grid.move_entity position
          (position.add o)) position z
        have hgrid : g.grid.move_entity position (position.add o) =
            { g.grid with
              mapping := (l1 ++ l2) ++
                [(((position.add o).x, (position.add o).y), z)] } := by
          rw [hunf, he2, herase, hdl]
        rw [hgrid]
        have hval : g.grid.mapping.map (fun kv => kv.2) =
            l1.map (fun kv => kv.2) ++ z :: l2.map (fun kv => kv.2) := by
          rw [hm]; simp
        refine ⟨rfl, ?_, ?_,
          Or.inr ⟨o, hsub (List.mem_cons_self _ _), ?_, hb, he⟩⟩
        · show (((l1 ++ l2) ++
              [(((position.add o).x, (position.add o).y), z)]).map
              (fun kv => kv.2)).Perm (g.grid.mapping.map (fun kv => kv.2))
          rw [hval]
          simp only [List.map_append, List.map_cons, List.map_nil]
          exact ((List.perm_append_singleton _ _).trans
            List.perm_middle.symm)
        · intro k u hu
          show (k, u) ∈ (l1 ++ l2) ++
              [(((position.add o).x, (position.add o).y), z)] ↔
            (k, u) ∈ g.grid.mapping
          rw [hm]
          simp only [List.mem_append, List.mem_cons, List.mem_singleton,
            List.not_mem_nil, or_false]
          constructor
          · rintro ((h | h) | h)
            · exact Or.inl h
            · exact Or.inr (Or.inr h)
            · exact absurd (congrArg Prod.snd h) hu
          · rintro (h | h | h)
            · exact Or.inl (Or.inl h)
            · exact absurd (congrArg Prod.snd h) hu
            · exact Or.inl (Or.inr h)
        · show (((position.add o).x, (position.add o).y), z) ∈
            (l1 ++ l2) ++ [(((position.add o).x, (position.add o).y), z)]
          exact List.mem_append_right _ (List.mem_cons_self _ _)
      | some entity =>
        show stepFrame g.grid
          (if g.grid.entityIsPlayer entity = true then g.infectPlayer
            else stepWalk g position rest).grid position z
        by_cases hpl : g.grid.entityIsPlayer entity = true
        · rw [if_pos hpl]
          obtain ⟨hmap, hent, _, _, _⟩ := infectPlayer_frame g
          unfold stepFrame
          rw [hmap, hent]
          exact ⟨rfl, List.Perm.refl _, fun _ _ _ => Iff.rfl, Or.inl hzmem⟩
        · rw [if_neg hpl]
          exact ih hsub2

/-- C10: a single step of a wandering Zombie (with any permutation drawn
from the random source) or of a TrackingZombie (on a grid containing a
player) adds no entity and removes none — the entity list is unchanged and
the occupants form the same multiset — leaves every entity other than the
acting zombie at its exact pre-step cell, and leaves the acting zombie
either in place or in an adjacent in-bounds cell that was empty before the
step. -/
theorem zombie_steps_frame (g : Game) (position : Position) (z : Nat)
    (perm : List Position) (rest : List (List Position)) (pp : Position)
    (hkeys : (g.grid.mapping.map (fun kv => kv.1)).Nodup)
    (hz : g.grid.get_entity position = some z)
    (hrng : g.rng = perm :: rest) (hperm : perm.Perm unitOffsets)
    (hp : g.grid.find_player = some pp) :
    stepFrame g.grid (Zombie.step position g).grid position z ∧
    stepFrame g.grid (TrackingZombie.step position g).grid position z := by
  constructor
  · have hpop : g.popRng = (perm, { g with rng := rest }) := by
      unfold Game.popRng
      rw [hrng]
    unfold Zombie.step
    rw [hpop]
    exact stepWalk_frame { g with rng := rest } position z hkeys hz perm
      (fun x hx => hperm.mem_iff.mp hx)
  · unfold TrackingZombie.step
    rw [hp]
    exact stepWalk_frame g position z hkeys hz (trackingOrder position pp)
      (fun x hx => (trackingOrder_perm position pp).mem_iff.mp hx)

/-- A 4x4 game for the frame witness: vulnerable player (entity 0) at
(3, 3), zombie (entity 1) at (1, 1), with a drawn permutation [E, S, N, W]. -/
def gameC10 : Game :=
  { grid :=
      (({ size := 4, mapping := [], entities := [],
          heap := [(0, .vulnerablePlayer false), (1, .zombie)] } :
        Grid).add_entity ⟨3, 3⟩ 0).add_entity ⟨1, 1⟩ 1
    no_steps := 0
    rng := [[⟨1, 0⟩, ⟨0, 1⟩, ⟨0, -1⟩, ⟨-1, 0⟩]] }

/-- Witness for C10 on `gameC10`: both step kinds satisfy the frame
property for the entity at (1, 1). -/
theorem zombie_steps_frame_witness :
    stepFrame gameC10.grid (Zombie.step ⟨1, 1⟩ gameC10).grid ⟨1, 1⟩ 1 ∧
    stepFrame gameC10.grid
      (TrackingZombie.step ⟨1, 1⟩ gameC10).grid ⟨1, 1⟩ 1 :=
  zombie_steps_frame gameC10 ⟨1, 1⟩ 1
    [⟨1, 0⟩, ⟨0, 1⟩, ⟨0, -1⟩, ⟨-1, 0⟩] [] ⟨3, 3⟩
    (by decide) (by decide) rfl (by decide) (by decide)

/-- Modelled from the spec: the DIRECTIONS constant of the missing
`main_support` module is the four movement characters 'W', 'A', 'S', 'D'
(spec: "If the direction is not one of 'W', 'A', 'S' or 'D'"). -/
def DIRECTIONS : List Char := ['W', 'A', 'S', 'D']

/-- Game.direction_to_offset (src/main.py 628-660); the UP/DOWN/LEFT/RIGHT
constants of `main_support` are 'W'/'S'/'A'/'D' per the docstring example
(direction_to_offset("W") = Position(0, -1)) and the spec. -/
def Game.direction_to_offset (g : Game) (direction : Char) :
    Option Position :=
  if direction = 'W' then some ⟨0, -1⟩
  else if direction = 'S' then some ⟨0, 1⟩
  else if direction = 'A' then some ⟨-1, 0⟩
  else if direction = 'D' then some ⟨1, 0⟩
  else none

/-- The inventory of the player found in the grid
(`game.get_player().get_inventory()`, src/main.py 1559-1561); a grid
without a holding player would make Python raise AttributeError
(unreachable with the advanced loader), modelled as an empty inventory. -/
def Game.player_inventory (g : Game) : Inventory :=
  match g.get_player with
  | some u =>
    match heapLookup u g.grid.heap with
    | some (.holdingPlayer _ inv) => inv
    | _ => ⟨[]⟩
  | none => ⟨[]⟩

/-- Outcome of the projectile walk of the fire action. -/
inductive FireRes where
  | noTarget
  | hit (position : Position)
  | fuelOut
deriving DecidableEq

/-- The projectile loop of the fire action (src/main.py 1580-1611): advance
one cell at a time from the player's position along the firing offset;
leaving the grid reports no target; the first occupied cell either holds a
Zombie-kind entity (a hit at that cell) or reports no target.  The Python
loop is `while True`; the `fuel` argument only makes the recursion
structural, and `fireWalk_terminates` below shows that `grid.size + 1`
fuel can never be exhausted from an in-bounds start, so `.fuelOut` is
unreachable there. -/
def fireWalk (grid : Grid) (offset : Position) :
    Nat → Position → FireRes
  | 0, _ => .fuelOut
  | fuel + 1, current_position =>
    if grid.in_bounds (current_position.add offset) = false then .noTarget
    else
      match grid.get_entity (current_position.add offset) with
      | some entity =>
        if grid.entityIsZombie entity then .hit (current_position.add offset)
        else .noTarget
      | none => fireWalk grid offset fuel (current_position.add offset)

/-- An upper bound on the loop iterations the projectile can take before
the bounds check fires, for each of the four unit offsets. -/
def exitFuel (grid : Grid) (offset cur : Position) : Nat :=
  if offset = ⟨1, 0⟩ then ((grid.size : Int) - cur.x).toNat
  else if offset = ⟨-1, 0⟩ then (cur.x + 1).toNat
  else if offset = ⟨0, 1⟩ then ((grid.size : Int) - cur.y).toNat
  else if offset = ⟨0, -1⟩ then (cur.y + 1).toNat
  else 0

theorem fireWalk_terminates (grid : Grid) (offset : Position)
    (hoff : offset ∈ unitOffsets) :
    ∀ (fuel : Nat) (cur : Position), exitFuel grid offset cur < fuel →
      fireWalk grid offset fuel cur ≠ FireRes.fuelOut := by
  simp only [unitOffsets, List.mem_cons, List.not_mem_nil, or_false]
    at hoff
  intro fuel
  induction fuel with
  | zero =>
    intro cur h
    omega
  | succ f ih =>
    intro cur h
    simp only [fireWalk]
    by_cases hb : grid.in_bounds (cur.add offset) = false
    · rw [hb, if_pos rfl]
      simp
    · simp only [Bool.not_eq_false] at hb
      rw [hb, if_neg (by simp)]
      cases he : grid.get_entity (cur.add offset) with
      | some entity =>
        show (if grid.entityIsZombie entity = true then
            FireRes.hit (cur.add offset) else FireRes.noTarget) ≠
          FireRes.fuelOut
        by_cases hzb : grid.entityIsZombie entity = true
        · rw [if_pos hzb]
          simp
        · rw [if_neg hzb]
          simp
      | none =>
        apply ih
        have hbb := hb
        unfold Grid.in_bounds at hbb
        simp only [Bool.and_eq_true, decide_eq_true_eq] at hbb
        rcases hoff with rfl | rfl | rfl | rfl <;>
          (simp only [exitFuel, Position.add] at h ⊢ <;>
           simp only [Position.mk.injEq] at h ⊢) <;>
          (norm_num at h ⊢) <;>
          (simp only [Position.add, Position.mk.injEq] at hbb; omega)

/-- The cell reached after n steps of the firing offset. -/
def stepN (offset : Position) : Nat → Position → Position
  | 0, cur => cur
  | n + 1, cur => stepN offset n (cur.add offset)

/-- A hit of the projectile walk lands on the first non-empty cell in the
firing direction: the hit cell is n+1 offsets from the start, holds a
Zombie-kind entity, is in bounds, and every strictly earlier cell along
the ray is in bounds and empty. -/
theorem fireWalk_hit (grid : Grid) (offset : Position) :
    ∀ (fuel : Nat) (cur p : Position),
      fireWalk grid offset fuel cur = FireRes.hit p →
      ∃ n : Nat, p = stepN offset (n + 1) cur ∧
        grid.in_bounds p = true ∧
        (∃ u, grid.get_entity p = some u ∧
          grid.entityIsZombie u = true) ∧
        ∀ j : Nat, 1 ≤ j → j ≤ n →
          grid.in_bounds (stepN offset j cur) = true ∧
          grid.get_entity (stepN offset j cur) = none := by
  intro fuel
  induction fuel with
  | zero =>
    intro cur p h
    simp [fireWalk] at h
  | succ f ih =>
    intro cur p h
    simp only [fireWalk] at h
    by_cases hb : grid.in_bounds (cur.add offset) = false
    · rw [hb, if_pos rfl] at h
      exact absurd h (by simp)
    · simp only [Bool.not_eq_false] at hb
      rw [hb, if_neg (by simp)] at h
      cases he : grid.get_entity (cur.add offset) with
      | some entity =>
        rw [he] at h
        simp only at h
        by_cases hzb : grid.entityIsZombie entity = true
        · rw [if_pos hzb] at h
          injection h with hp
          refine ⟨0, ?_, ?_, ⟨entity, ?_, hzb⟩, ?_⟩
          · rw [← hp]
            rfl
          · rw [← hp]
            exact hb
          · rw [← hp]
            exact he
          · intro j hj1 hj2
            omega
        · rw [if_neg hzb] at h
          exact absurd h (by simp)
      | none =>
        rw [he] at h
        simp only at h
        obtain ⟨n, hp, hbp, hzp, hmid⟩ := ih (cur.add offset) p h
        refine ⟨n + 1, hp, hbp, hzp, ?_⟩
        intro j hj1 hj2
        match j, hj1 with
        | 1, _ =>
          exact ⟨hb, he⟩
        | j + 2, _ =>
          have := hmid (j + 1) (by omega) (by omega)
          exact this

/-- The fire action's resolution (src/main.py 1554-1615, the branch for
action 'F' up to, but not including, the closing `game.step()` call which
the spec treats as the separate turn advance): with no crossbow in the
player's inventory, or an invalid firing direction, nothing happens;
otherwise the projectile walks from the player's position and a hit
removes the struck entity from the grid.  A grid without a player would
make Python fail before the action check (unreachable: the game is only
built on grids with a player); modelled as no change. -/
def fireResolve (g : Game) (fire_direction : Char) : Game :=
  match g.grid.find_player with
  | none => g
  | some current_position =>
    if g.player_inventory.contains 'C' = true then
      if fire_direction ∈ DIRECTIONS then
        match g.direction_to_offset fire_direction with
        | some offset =>
          match fireWalk g.grid offset (g.grid.size + 1)
              current_position with
          | .hit p => { g with grid := g.grid.remove_entity p }
          | _ => g
        | none => g
      else g
    else g

theorem fireResolve_cases (g : Game) (pp : Position) (dir : Char)
    (offset : Position) (hp : g.grid.find_player = some pp)
    (hc : g.player_inventory.contains 'C' = true)
    (hd : dir ∈ DIRECTIONS)
    (hoff : g.direction_to_offset dir = some offset) :
    (∀ p, fireWalk g.grid offset (g.grid.size + 1) pp = FireRes.hit p →
      fireResolve g dir = { g with grid := g.grid.remove_entity p }) ∧
    (fireWalk g.grid offset (g.grid.size + 1) pp = FireRes.noTarget →
      fireResolve g dir = g) := by
  unfold fireResolve
  rw [hp]
  simp only [hc, if_pos, if_true, hd, hoff]
  constructor
  · intro p hw
    rw [hw]
  · intro hw
    rw [hw]

theorem exitFuel_lt (grid : Grid) (offset pp : Position)
    (hoff : offset ∈ unitOffsets) (hpb : grid.in_bounds pp = true) :
    exitFuel grid offset pp < grid.size + 1 := by
  unfold Grid.in_bounds at hpb
  simp only [Bool.and_eq_true, decide_eq_true_eq] at hpb
  simp only [unitOffsets, List.mem_cons, List.not_mem_nil, or_false]
    at hoff
  rcases hoff with rfl | rfl | rfl | rfl <;>
    simp only [exitFuel, Position.mk.injEq] <;>
    norm_num <;>
    omega

/-- C4: resolution of the fire action.  With a crossbow held and a valid
cardinal direction, the projectile walk from the player's position along
that direction's unit offset never exhausts its fuel (no hard error), and
either hits the first non-empty cell — which then holds a Zombie-kind
entity, every strictly earlier cell on the ray being in bounds and empty —
in which case the grid mutation is exactly the removal of that cell's
occupant, or reports no target leaving the game unchanged.  With no
crossbow held, or a direction outside W/A/S/D, the state is unchanged. -/
theorem fire_resolution_dichotomy (g : Game) (pp : Position) (dir : Char)
    (hp : g.grid.find_player = some pp)
    (hpb : g.grid.in_bounds pp = true) :
    (g.player_inventory.contains 'C' = false → fireResolve g dir = g) ∧
    (dir ∉ DIRECTIONS → fireResolve g dir = g) ∧
    (g.player_inventory.contains 'C' = true → dir ∈ DIRECTIONS →
      ∃ offset, g.direction_to_offset dir = some offset ∧
        offset ∈ unitOffsets ∧
        fireWalk g.grid offset (g.grid.size + 1) pp ≠ FireRes.fuelOut ∧
        (∀ p, fireWalk g.grid offset (g.grid.size + 1) pp =
            FireRes.hit p →
          fireResolve g dir = { g with grid := g.grid.remove_entity p } ∧
          g.grid.in_bounds p = true ∧
          (∃ u, g.grid.get_entity p = some u ∧
            g.grid.entityIsZombie u = true) ∧
          (∃ n, p = stepN offset (n + 1) pp ∧ ∀ j, 1 ≤ j → j ≤ n →
            g.grid.in_bounds (stepN offset j pp) = true ∧
            g.grid.get_entity (stepN offset j pp) = none)) ∧
        (fireWalk g.grid offset (g.grid.size + 1) pp =
            FireRes.noTarget →
          fireResolve g dir = g)) := by
  refine ⟨?_, ?_, ?_⟩
  · intro hc
    unfold fireResolve
    rw [hp]
    simp [hc]
  · intro hd
    unfold fireResolve
    rw [hp]
    by_cases hc : g.player_inventory.contains 'C' = true
    · simp [hc, hd]
    · simp [hc]
  · intro hc hd
    have hdd := hd
    simp only [DIRECTIONS, List.mem_cons, List.not_mem_nil, or_false]
      at hdd
    rcases hdd with rfl | rfl | rfl | rfl <;>
      refine ⟨_, rfl, by decide, ?_, ?_, ?_⟩ <;>
      first
      | exact fireWalk_terminates g.grid _ (by decide) _ pp
          (exitFuel_lt g.grid _ pp (by decide) hpb)
      | (intro p hw
         obtain ⟨hres, _⟩ := fireResolve_cases g pp _ _ hp hc hd rfl
         obtain ⟨n, hpn, hbp, hz, hmid⟩ := fireWalk_hit g.grid _ _ pp p hw
         exact ⟨hres p hw, hbp, hz, ⟨n, hpn, hmid⟩⟩)
      | (intro hw
         exact (fireResolve_cases g pp _ _ hp hc hd rfl).2 hw)

/-- A 4x4 game for the fire witness: holding player (entity 0, carrying a
crossbow) at (0, 0), zombie (entity 1) at (2, 0), the cell between them
empty. -/
def gameC4 : Game :=
  { grid :=
      (({ size := 4, mapping := [], entities := [],
          heap := [(0, .holdingPlayer false ⟨[⟨2, .crossbow, 5⟩]⟩),
                   (1, .zombie)] } :
        Grid).add_entity ⟨0, 0⟩ 0).add_entity ⟨2, 0⟩ 1
    no_steps := 0
    rng := [] }

/-- Witness for C4 on `gameC4`: the player holds a crossbow and firing
East resolves without fuel exhaustion, with a hit removing exactly the
first non-empty cell's zombie. -/
theorem fire_resolution_dichotomy_witness :
    gameC4.player_inventory.contains 'C' = true ∧
    (∃ offset, gameC4.direction_to_offset 'D' = some offset ∧
      offset ∈ unitOffsets ∧
      fireWalk gameC4.grid offset (gameC4.grid.size + 1) ⟨0, 0⟩ ≠
        FireRes.fuelOut ∧
      (∀ p, fireWalk gameC4.grid offset (gameC4.grid.size + 1) ⟨0, 0⟩ =
          FireRes.hit p →
        fireResolve gameC4 'D' =
          { gameC4 with grid := gameC4.grid.remove_entity p } ∧
        gameC4.grid.in_bounds p = true ∧
        (∃ u, gameC4.grid.get_entity p = some u ∧
          gameC4.grid.entityIsZombie u = true) ∧
        (∃ n, p = stepN offset (n + 1) ⟨0, 0⟩ ∧ ∀ j, 1 ≤ j → j ≤ n →
          gameC4.grid.in_bounds (stepN offset j ⟨0, 0⟩) = true ∧
          gameC4.grid.get_entity (stepN offset j ⟨0, 0⟩) = none)) ∧
      (fireWalk gameC4.grid offset (gameC4.grid.size + 1) ⟨0, 0⟩ =
          FireRes.noTarget →
        fireResolve gameC4 'D' = gameC4)) :=
  ⟨by decide,
   (fire_resolution_dichotomy gameC4 ⟨0, 0⟩ 'D' (by decide)
      (by decide)).2.2 (by decide) (by decide)⟩
